import Mathlib

/-!
Verification of the BizSight bulk import/export subsystem.

This file contains a shallow embedding, in Lean 4, of the data-interchange
and bulk-import code of the BizSight bookkeeping application:

* `src/lib/csv-utils.ts` — `convertToCSV` and `parseCSV`;
* `src/contexts/data-context.tsx` — the reactive store's mutation and
  bulk-import operations (`importIncomesFromCSV`, `importExpensesFromCSV`,
  `importAppointmentsFromCSV`, `importAllData`, `deleteCollectionBatch`,
  `totalRevenue` / `totalExpenses` / `totalProfit`);
* the unified-CSV variant of the data context (`importAllDataFromUnifiedCSV`);
* `src/app/data-management/page.tsx` — `handleCsvFileSelected` header
  validation in front of the CSV imports;
* `src/ai/flows/financial-insight-flow.ts` — `financialInsightFlow`.

JavaScript strings are modelled as Lean `String` (operated on as `List Char`);
JS numbers as `ℚ` (the application disclaims floating-point precision
concerns: amounts are ordinary numbers combined with `+`, `-` only);
`Date`/`Timestamp` values as `Int` millisecond timestamps; JS objects of
string fields (`Record<string, string>`) as association lists
(`List (String × String)`) with first-match lookup and in-place update,
which matches JS property read/assignment for the operations used here.
JS builtins used by the source (`String.prototype.trim`, `String.split`,
`parseFloat`, `new Date(...)`) are given faithful executable models below,
restricted where noted.
-/

namespace BizSight

/-! ### JS string builtins -/

/-- Whitespace for the purposes of `String.prototype.trim` (ASCII range;
the source data never contains non-ASCII space characters). -/
def jsIsSpace (c : Char) : Bool :=
  c = ' ' || c = '\t' || c = '\n' || c = '\r' || c = '\x0b' || c = '\x0c'

/-- `trim` on character lists: drop whitespace from both ends. -/
def jsTrimL (cs : List Char) : List Char :=
  ((cs.dropWhile jsIsSpace).reverse.dropWhile jsIsSpace).reverse

/-- Model of `s.trim()`. -/
def jsTrim (s : String) : String := String.mk (jsTrimL s.data)

/-- Split a character list at every occurrence of a separator character
(the split points are kept even when they produce empty pieces, as JS
`String.prototype.split` does). -/
def splitOnChar (sep : Char) : List Char → List Char → List (List Char)
  | [], acc => [acc.reverse]
  | c :: rest, acc =>
    if c = sep then acc.reverse :: splitOnChar sep rest []
    else splitOnChar sep rest (c :: acc)

/-- Drop one trailing carriage return, if present. -/
def dropTrailingCR (cs : List Char) : List Char :=
  if cs.getLast? = some '\r' then cs.dropLast else cs

/-- Strip one trailing `'\r'` from every piece except the last. -/
def stripCRs : List (List Char) → List (List Char)
  | [] => []
  | [x] => [x]
  | x :: y :: t => dropTrailingCR x :: stripCRs (y :: t)

/-- Model of `s.split(/\r?\n/)` on character lists: splitting at `\r?\n`
is splitting at every `'\n'` and then removing one `'\r'` from the tail of
every piece that was followed by a `'\n'` (every piece but the last). -/
def splitLinesL (cs : List Char) : List (List Char) :=
  stripCRs (splitOnChar '\n' cs [])

/-- Model of `s.split(/\r?\n/)`. -/
def splitLines (s : String) : List String :=
  (splitLinesL s.data).map String.mk

/-- Model of `line.split(',')` (the naive header-row split). -/
def splitComma (s : String) : List String :=
  (splitOnChar ',' s.data []).map String.mk

/-- Number of `'"'` characters in a list. -/
def countQuotes (cs : List Char) : Nat := cs.countP (· = '"')

/-- Data-line field split: the source splits on the regex
`,(?=(?:(?:[^"]*"){2})*[^"]*$)`, i.e. at every comma that is followed by an
even number of double quotes up to the end of the line. -/
def splitFieldsAux : List Char → List Char → List (List Char)
  | [], acc => [acc.reverse]
  | c :: rest, acc =>
    if c = ',' ∧ countQuotes rest % 2 = 0 then acc.reverse :: splitFieldsAux rest []
    else splitFieldsAux rest (c :: acc)

/-- Model of `line.split(CsvSplitRegex)`. -/
def splitFields (s : String) : List String :=
  (splitFieldsAux s.data []).map String.mk

/-- Remove one trailing double quote, if present. -/
def stripEdgeQuoteR (cs : List Char) : List Char :=
  if cs.getLast? = some '"' then cs.dropLast else cs

/-- Model of `header.replace(/^"|"$/g, '')`: remove one leading and one
trailing double quote, each if present. -/
def stripEdgeQuotesL (cs : List Char) : List Char :=
  stripEdgeQuoteR (if cs.head? = some '"' then cs.tail else cs)

/-- Model of `value.replace(/""/g, '"')`: collapse doubled quotes
left-to-right, non-overlapping. -/
def collapseQuotes : List Char → List Char
  | [] => []
  | [c] => [c]
  | c :: c2 :: rest =>
    if c = '"' ∧ c2 = '"' then '"' :: collapseQuotes rest
    else c :: collapseQuotes (c2 :: rest)

/-- Model of `value.replace(/"/g, '""')`: double every quote. -/
def doubleQuotes : List Char → List Char
  | [] => []
  | c :: rest =>
    if c = '"' then '"' :: '"' :: doubleQuotes rest else c :: doubleQuotes rest

/-! ### csv-utils.ts -/

/-- The quote-stripping step of `parseCSV`'s per-field processing: remove
one layer of surrounding quotes if the value both starts and ends with
`'"'` (for a one-character value `"`, JS `substring(1, 0)` swaps its
arguments and returns the value unchanged). -/
def stripWrapQuotes (v : List Char) : List Char :=
  if v.head? = some '"' ∧ v.getLast? = some '"' then
    if v.length ≤ 1 then v else (v.tail).dropLast
  else v

/-- The body of `parseCSV`'s per-field processing: trim, strip one layer
of surrounding quotes, then collapse doubled quotes. -/
def processField (cs : List Char) : List Char :=
  collapseQuotes (stripWrapQuotes (jsTrimL cs))

/-- JS objects with string-valued fields (`Record<string, string>`),
as association lists; keys are unique by construction of `objUpd`. -/
abbrev Obj := List (String × String)

/-- Property read `o[k]`: `none` models `undefined`. -/
def objGet (o : Obj) (k : String) : Option String :=
  match o with
  | [] => none
  | (k', v) :: t => if k' = k then some v else objGet t k

/-- Property assignment `o[k] = v`: overwrite in place, else append
(JS objects keep first-insertion key order). -/
def objUpd (o : Obj) (k : String) (v : String) : Obj :=
  match o with
  | [] => [(k, v)]
  | (k', v') :: t => if k' = k then (k', v) :: t else (k', v') :: objUpd t k v

/-- `headers.forEach((header, index) => record[header] = values[index])`
starting from the empty object. -/
def buildRecord (headers : List String) (values : List String) : Obj :=
  (List.zip headers values).foldl (fun o kv => objUpd o kv.1 kv.2) []

/-- The `escapeCSVValue` helper of `convertToCSV`: `null`/`undefined`
becomes the empty string; a value containing a comma, newline or double
quote has its quotes doubled and is wrapped in double quotes. -/
def escapeCSVValue : Option String → String
  | none => ""
  | some s =>
    if s.data.contains ',' || s.data.contains '\n' || s.data.contains '"' then
      String.mk ('"' :: doubleQuotes s.data ++ ['"'])
    else s

/-- Join with a single-character separator (models `Array.prototype.join`). -/
def joinSep (sep : Char) : List String → String
  | [] => ""
  | [x] => x
  | x :: y :: xs => x ++ String.mk [sep] ++ joinSep sep (y :: xs)

/-- `convertToCSV(data, headers)` from `csv-utils.ts`, for string-valued
records (a `Date` field is rendered as an ISO string, i.e. a string, before
escaping; this model takes the records with string fields as the claims
state them). -/
def convertToCSV (data : List Obj) (headers : List String) : String :=
  let headerRow := joinSep ',' (headers.map (fun h => escapeCSVValue (some h)))
  let dataRows := data.map (fun row =>
    joinSep ',' (headers.map (fun h => escapeCSVValue (objGet row h))))
  joinSep '\n' (headerRow :: dataRows)

/-- The for-loop of `parseCSV` over the data lines: skip blank lines,
split each line into fields, process each field, and either build a record
(field count matches the header count) or log a warning recording the
skipped line. -/
def parseCSVLoop (headers : List String) : List String → List Obj × List String
  | [] => ([], [])
  | line :: rest =>
    let (recs, warns) := parseCSVLoop headers rest
    if jsTrim line = "" then (recs, warns)
    else
      let values := (splitFields line).map (fun f => String.mk (processField f.data))
      if values.length = headers.length then
        (buildRecord headers values :: recs, warns)
      else
        (recs, line :: warns)

/-- Header-row parsing:
`lines[0].split(',').map(header => header.trim().replace(/^"|"$/g, ''))`. -/
def headerNames (headerLine : String) : List String :=
  (splitComma headerLine).map (fun h => String.mk (stripEdgeQuotesL (jsTrimL h.data)))

/-- `parseCSV(csvText)` from `csv-utils.ts`, instrumented with the list of
lines skipped by the `console.warn` branch (in source order).  The text is
trimmed, split into lines, the first line is split naively on commas into
headers (trimmed, surrounding quotes stripped), and the remaining lines are
parsed by `parseCSVLoop`. -/
def parseCSVWithLog (csvText : String) : List Obj × List String :=
  let lines := splitLines (jsTrim csvText)
  match lines with
  | [] => ([], [])
  | hd :: tl => parseCSVLoop (headerNames hd) tl

/-- `parseCSV(csvText)`: just the records. -/
def parseCSV (csvText : String) : List Obj := (parseCSVWithLog csvText).1

/-! ### JS number and date builtins -/

/-- Numeric value of a decimal digit. -/
def digitVal (c : Char) : Nat := c.toNat - '0'.toNat

/-- Decimal digits to a natural number. -/
def digitsToNat (ds : List Char) : Nat := ds.foldl (fun a c => a * 10 + digitVal c) 0

/-- Model of `parseFloat(s)` for finite decimal literals: skip leading
whitespace, optional sign, integer digits, optional fraction, optional
well-formed exponent; `none` models `NaN` (no digit in the longest valid
prefix).  The `Infinity` literal is not modelled (never produced or
consumed by this application). -/
def jsParseFloat (s : String) : Option ℚ :=
  let cs := s.data.dropWhile jsIsSpace
  let (sgn, cs) : ℚ × List Char :=
    match cs with
    | '-' :: t => (-1, t)
    | '+' :: t => (1, t)
    | _ => (1, cs)
  let ip := cs.takeWhile Char.isDigit
  let r1 := cs.dropWhile Char.isDigit
  let (fp, r2) : List Char × List Char :=
    match r1 with
    | '.' :: t => (t.takeWhile Char.isDigit, t.dropWhile Char.isDigit)
    | _ => ([], r1)
  if ip.isEmpty ∧ fp.isEmpty then none
  else
    let base : ℚ := (digitsToNat ip : ℚ) + (digitsToNat fp : ℚ) / ((10 : ℚ) ^ fp.length)
    let expFactor : ℚ :=
      match r2 with
      | 'e' :: t | 'E' :: t =>
        let (esgn, t') : Bool × List Char :=
          match t with
          | '-' :: u => (true, u)
          | '+' :: u => (false, u)
          | _ => (false, t)
        let ed := t'.takeWhile Char.isDigit
        if ed.isEmpty then 1
        else if esgn then 1 / (10 : ℚ) ^ digitsToNat ed else (10 : ℚ) ^ digitsToNat ed
      | _ => 1
    some (sgn * base * expFactor)

/-- `parseFloat(x)` where `x` may be `undefined` (coerces to the string
`"undefined"`, which parses to `NaN`). -/
def jsParseFloatOpt (o : Option String) : Option ℚ := o.bind jsParseFloat

/-- Millisecond encoding for a calendar date plus time of day. The day
number is a strictly monotone (not calendrically exact) encoding; only
validity, equality and relative order of dates matter to the claims. -/
def msEncode (y m d h mi se ms : Nat) : Int :=
  (((y * 10000 + m * 100 + d) * 86400000 : Nat) : Int)
    + ((h * 3600 + mi * 60 + se) * 1000 + ms)

/-- Model of `new Date(s).getTime()` restricted to the ISO-8601 forms this
application reads and writes: `YYYY-MM-DD` and the `toISOString` form
`YYYY-MM-DDTHH:MM:SS.mmmZ`.  `none` models an Invalid Date (`NaN` time),
which is what `new Date` yields on the empty string or non-date text. -/
def jsParseDate (s : String) : Option Int :=
  match s.data with
  | [y1, y2, y3, y4, '-', m1, m2, '-', d1, d2] =>
    if ([y1, y2, y3, y4, m1, m2, d1, d2].all Char.isDigit) then
      let m := digitsToNat [m1, m2]
      let d := digitsToNat [d1, d2]
      if 1 ≤ m ∧ m ≤ 12 ∧ 1 ≤ d ∧ d ≤ 31 then
        some (msEncode (digitsToNat [y1, y2, y3, y4]) m d 0 0 0 0)
      else none
    else none
  | [y1, y2, y3, y4, '-', m1, m2, '-', d1, d2, 'T',
     h1, h2, ':', i1, i2, ':', s1, s2, '.', f1, f2, f3, 'Z'] =>
    if ([y1, y2, y3, y4, m1, m2, d1, d2, h1, h2, i1, i2, s1, s2, f1, f2, f3].all Char.isDigit) then
      let m := digitsToNat [m1, m2]
      let d := digitsToNat [d1, d2]
      let h := digitsToNat [h1, h2]
      let mi := digitsToNat [i1, i2]
      let se := digitsToNat [s1, s2]
      if 1 ≤ m ∧ m ≤ 12 ∧ 1 ≤ d ∧ d ≤ 31 ∧ h ≤ 23 ∧ mi ≤ 59 ∧ se ≤ 59 then
        some (msEncode (digitsToNat [y1, y2, y3, y4]) m d h mi se (digitsToNat [f1, f2, f3]))
      else none
    else none
  | _ => none

/-- `new Date(x).getTime()` where `x` may be `undefined` (Invalid Date). -/
def jsParseDateOpt (o : Option String) : Option Int := o.bind jsParseDate

/-- JS truthiness test `row.k` for a string-or-undefined property:
`undefined` and the empty string are falsy. -/
def rowTruthy (r : Obj) (k : String) : Bool :=
  match objGet r k with
  | none => false
  | some v => v ≠ ""

/-- Model of `s.toLowerCase()` (ASCII). -/
def jsToLower (s : String) : String := String.mk (s.data.map Char.toLower)

/-! ### Record types and the reactive store (data-context.tsx) -/

/-- Identifiers minted by the backing document store on insert.  The store
generates document ids from a namespace disjoint from any identifier
carried inside an imported file; this models Firestore's generated-id
guarantee. -/
def mintId (n : Nat) : String := "doc_" ++ Nat.repr n

/-- An income record as held in the store (id, source, amount, date). -/
structure IncomeRec where
  id : String
  source : String
  amount : ℚ
  date : Int
  deriving DecidableEq, Repr

/-- An expense record as held in the store. -/
structure ExpenseRec where
  id : String
  category : String
  amount : ℚ
  date : Int
  deriving DecidableEq, Repr

/-- An appointment record as held in the store. -/
structure AppointmentRec where
  id : String
  title : String
  date : Int
  description : String
  deriving DecidableEq, Repr

/-- The authoritative state: the three backing collections (equivalently,
the store's live in-memory lists — the live subscription mirrors the
collections; the subscription orders the lists by date, which does not
affect membership, count or sums) plus the id-minting counter. -/
structure Store where
  incomes : List IncomeRec
  expenses : List ExpenseRec
  appointments : List AppointmentRec
  nextId : Nat
  deriving DecidableEq, Repr

/-- `addDoc(collection('incomes'), {...})`: insert with a fresh minted id. -/
def insertIncome (st : Store) (source : String) (amount : ℚ) (date : Int) : Store :=
  { st with incomes := st.incomes ++ [⟨mintId st.nextId, source, amount, date⟩],
            nextId := st.nextId + 1 }

/-- Insert an expense with a fresh minted id. -/
def insertExpense (st : Store) (category : String) (amount : ℚ) (date : Int) : Store :=
  { st with expenses := st.expenses ++ [⟨mintId st.nextId, category, amount, date⟩],
            nextId := st.nextId + 1 }

/-- Insert an appointment with a fresh minted id. -/
def insertAppointment (st : Store) (title : String) (date : Int) (description : String) : Store :=
  { st with appointments := st.appointments ++ [⟨mintId st.nextId, title, date, description⟩],
            nextId := st.nextId + 1 }

/-- Form payload of `addExpense` (`ExpenseFormData`). -/
structure ExpenseFormData where
  category : String
  amount : ℚ
  date : Int
  deriving DecidableEq, Repr

/-- `addExpense`: writes the new expense to the backing collection; the
live subscription then delivers the updated list. -/
def addExpense (st : Store) (e : ExpenseFormData) : Store :=
  insertExpense st e.category e.amount e.date

/-- `totalRevenue = useMemo(() => incomes.reduce((sum, income) => sum + income.amount, 0))`. -/
def totalRevenue (st : Store) : ℚ := st.incomes.foldl (fun s i => s + i.amount) 0

/-- `totalExpenses = useMemo(() => expenses.reduce((sum, expense) => sum + expense.amount, 0))`. -/
def totalExpenses (st : Store) : ℚ := st.expenses.foldl (fun s e => s + e.amount) 0

/-- `totalProfit = useMemo(() => totalRevenue - totalExpenses)`. -/
def totalProfit (st : Store) : ℚ := totalRevenue st - totalExpenses st

/-! ### Single-kind CSV imports (data-context.tsx) -/

/-- The row test of `importIncomesFromCSV`:
`row.source && !isNaN(parseFloat(row.amount)) && !isNaN(new Date(row.date).getTime())`;
returns the extracted (source, amount, date) when the row is valid. -/
def incomeRowData (r : Obj) : Option (String × ℚ × Int) :=
  match objGet r "source", jsParseFloatOpt (objGet r "amount"),
        jsParseDateOpt (objGet r "date") with
  | some s, some a, some d => if s ≠ "" then some (s, a, d) else none
  | _, _, _ => none

/-- The row test of `importExpensesFromCSV`. -/
def expenseRowData (r : Obj) : Option (String × ℚ × Int) :=
  match objGet r "category", jsParseFloatOpt (objGet r "amount"),
        jsParseDateOpt (objGet r "date") with
  | some c, some a, some d => if c ≠ "" then some (c, a, d) else none
  | _, _, _ => none

/-- The row test of `importAppointmentsFromCSV`:
`row.title && !isNaN(new Date(row.date).getTime())`; the description
defaults to the empty string (`row.description || ""`). -/
def appointmentRowData (r : Obj) : Option (String × Int × String) :=
  match objGet r "title", jsParseDateOpt (objGet r "date") with
  | some t, some d =>
    if t ≠ "" then
      some (t, d, match objGet r "description" with
                  | none => "" | some dd => if dd = "" then "" else dd)
    else none
  | _, _ => none

/-- One row of the `forEach` of `importIncomesFromCSV`: insert a valid row,
skip (with a warning) an invalid one. -/
def incomeRowStep (s : Store) (r : Obj) : Store :=
  match incomeRowData r with
  | some (src, a, d) => insertIncome s src a d
  | none => s

/-- One row of the `forEach` of `importExpensesFromCSV`. -/
def expenseRowStep (s : Store) (r : Obj) : Store :=
  match expenseRowData r with
  | some (c, a, d) => insertExpense s c a d
  | none => s

/-- One row of the `forEach` of `importAppointmentsFromCSV`. -/
def appointmentRowStep (s : Store) (r : Obj) : Store :=
  match appointmentRowData r with
  | some (t, d, desc) => insertAppointment s t d desc
  | none => s

/-- `importIncomesFromCSV(csvData)`: delete every income, then insert each
valid row (invalid rows are skipped with a warning). -/
def importIncomesFromCSV (st : Store) (csvData : List Obj) : Store :=
  csvData.foldl incomeRowStep { st with incomes := [] }

/-- `importExpensesFromCSV(csvData)`. -/
def importExpensesFromCSV (st : Store) (csvData : List Obj) : Store :=
  csvData.foldl expenseRowStep { st with expenses := [] }

/-- `importAppointmentsFromCSV(csvData)`. -/
def importAppointmentsFromCSV (st : Store) (csvData : List Obj) : Store :=
  csvData.foldl appointmentRowStep { st with appointments := [] }

/-! ### CSV import pipeline of the data-management page -/

/-- The kind selected for a single-kind CSV import. -/
inductive CsvKind
  | incomes
  | expenses
  | appointments
  deriving DecidableEq, Repr

/-- The header pre-check of `handleCsvFileSelected`: the required fields
must be present (not `undefined`) on the first parsed row. -/
def csvHeadersValid (k : CsvKind) (firstRow : Obj) : Bool :=
  match k with
  | .incomes =>
    (objGet firstRow "source").isSome && (objGet firstRow "amount").isSome
      && (objGet firstRow "date").isSome
  | .expenses =>
    (objGet firstRow "category").isSome && (objGet firstRow "amount").isSome
      && (objGet firstRow "date").isSome
  | .appointments =>
    (objGet firstRow "title").isSome && (objGet firstRow "date").isSome

/-- Dispatch of `confirmCsvImportData` to the selected kind's import. -/
def importKindFromCSV (k : CsvKind) (st : Store) (rows : List Obj) : Store :=
  match k with
  | .incomes => importIncomesFromCSV st rows
  | .expenses => importExpensesFromCSV st rows
  | .appointments => importAppointmentsFromCSV st rows

/-- The single-kind CSV import pipeline: `handleCsvFileSelected` parses the
file and validates the first row's headers; only when validation passes is
the kind's import (which performs the deletion) invoked.  On a validation
failure the error message is surfaced and the store is left untouched. -/
def runCsvImport (k : CsvKind) (csvText : String) (st : Store) : Store × Option String :=
  let parsedData := parseCSV csvText
  match parsedData with
  | [] => (st, some "CSV file is empty or has no data rows.")
  | firstRow :: _ =>
    if csvHeadersValid k firstRow then
      (importKindFromCSV k st parsedData, none)
    else
      (st, some "Invalid CSV format. Missing required headers.")

/-! ### Unified CSV import (data-context, unified variant) -/

/-- The `console.warn` events of `importAllDataFromUnifiedCSV`, carrying the
offending row as the source logs it. -/
inductive UWarn
  | invalidDate (row : Obj)
  | invalidIncome (row : Obj)
  | invalidExpense (row : Obj)
  | invalidAppointment (row : Obj)
  | unknownType (row : Obj)
  deriving DecidableEq, Repr

/-- The amount read of the unified import:
`row.amount ? parseFloat(row.amount) : 0` — a missing or empty `amount`
field is falsy and defaults to `0` rather than producing `NaN`. -/
def unifiedAmount (r : Obj) : Option ℚ :=
  if rowTruthy r "amount" then jsParseFloatOpt (objGet r "amount") else some 0

/-- The `case 'income'` branch of the unified import's `type` switch:
insert when `row.source && !isNaN(amount)`, otherwise warn and skip. -/
def unifiedIncomeBranch (st : Store) (r : Obj) (d : Int) : Store × Option UWarn :=
  match objGet r "source", unifiedAmount r with
  | some s, some a =>
    if s ≠ "" then (insertIncome st s a d, none) else (st, some (.invalidIncome r))
  | _, _ => (st, some (.invalidIncome r))

/-- The `case 'expense'` branch of the unified import's `type` switch. -/
def unifiedExpenseBranch (st : Store) (r : Obj) (d : Int) : Store × Option UWarn :=
  match objGet r "category", unifiedAmount r with
  | some c, some a =>
    if c ≠ "" then (insertExpense st c a d, none) else (st, some (.invalidExpense r))
  | _, _ => (st, some (.invalidExpense r))

/-- The `case 'appointment'` branch of the unified import's `type` switch:
insert when `row.title`, with `description: row.description || ""`. -/
def unifiedAppointmentBranch (st : Store) (r : Obj) (d : Int) : Store × Option UWarn :=
  match objGet r "title" with
  | some t =>
    if t ≠ "" then
      (insertAppointment st t d
        (match objGet r "description" with
         | none => "" | some dd => if dd = "" then "" else dd), none)
    else (st, some (.invalidAppointment r))
  | none => (st, some (.invalidAppointment r))

/-- The body of the per-row `forEach` of `importAllDataFromUnifiedCSV`:
`type = row.type?.toLowerCase()`, `date = new Date(row.date)`; an
unparseable date skips the row first; then the `type` switch dispatches to
the per-kind insertion branch, with unknown types skipped.  (On the
success path the batched writes are equivalent to sequential inserts.) -/
def applyUnifiedRow (st : Store) (r : Obj) : Store × Option UWarn :=
  let ty := (objGet r "type").map jsToLower
  match jsParseDateOpt (objGet r "date") with
  | none => (st, some (.invalidDate r))
  | some d =>
    if ty = some "income" then unifiedIncomeBranch st r d
    else if ty = some "expense" then unifiedExpenseBranch st r d
    else if ty = some "appointment" then unifiedAppointmentBranch st r d
    else (st, some (.unknownType r))

/-- The `forEach` over all rows, accumulating inserts and warnings. -/
def applyUnifiedRows (st : Store) (rows : List Obj) : Store × List UWarn :=
  rows.foldl (fun acc r =>
      let (s, w) := applyUnifiedRow acc.1 r
      (s, acc.2 ++ w.toList))
    (st, [])

/-- `importAllDataFromUnifiedCSV(csvData)` on the success path: delete all
three collections, then apply every row. -/
def importAllDataFromUnifiedCSV (st : Store) (csvData : List Obj) : Store × List UWarn :=
  applyUnifiedRows { st with incomes := [], expenses := [], appointments := [] } csvData

/-- The backing-store operations performed by `importAllDataFromUnifiedCSV`,
in program order: three per-collection batched deletions, then the single
combined insert batch commit. -/
inductive UStep
  | delIncomes
  | delExpenses
  | delAppointments
  | commitAdds
  deriving DecidableEq, Repr

/-- A fault model for the backing store: which step (if any) rejects, and
with which error.  `fun _ => none` is the fault-free backend. -/
def FaultModel := UStep → Option String

/-- Backend that fails exactly at step `u` with error `e`. -/
def failAt (u : UStep) (e : String) : FaultModel :=
  fun u' => if u' = u then some e else none

/-- `importAllDataFromUnifiedCSV(csvData)` run against a fallible backing
store.  Each deletion is awaited in order; a rejection propagates out of
the `catch` (which logs and rethrows the same error) with the deletions
already performed left in place.  The inserts form one `writeBatch`, so a
failed commit applies none of them. -/
def runUnifiedImport (fm : FaultModel) (st : Store) (csvData : List Obj) :
    Store × Except String Unit :=
  match fm .delIncomes with
  | some e => (st, .error e)
  | none =>
    let st1 := { st with incomes := [] }
    match fm .delExpenses with
    | some e => (st1, .error e)
    | none =>
      let st2 := { st1 with expenses := [] }
      match fm .delAppointments with
      | some e => (st2, .error e)
      | none =>
        let st3 := { st2 with appointments := [] }
        match fm .commitAdds with
        | some e => (st3, .error e)
        | none => ((applyUnifiedRows st3 csvData).1, .ok ())

/-! ### JSON envelope import (importAllData) -/

/-- An income entry of the JSON export envelope (date as ISO string). -/
structure JIncome where
  id : String
  source : String
  amount : ℚ
  date : String
  deriving DecidableEq, Repr

/-- An expense entry of the JSON export envelope. -/
structure JExpense where
  id : String
  category : String
  amount : ℚ
  date : String
  deriving DecidableEq, Repr

/-- An appointment entry of the JSON export envelope. -/
structure JAppointment where
  id : String
  title : String
  date : String
  description : Option String
  deriving DecidableEq, Repr

/-- The export envelope (`AllDataExport`): the three arrays. -/
structure AllDataExport where
  incomes : List JIncome
  expenses : List JExpense
  appointments : List JAppointment
  deriving DecidableEq, Repr

/-- Whether every `date` string of the envelope parses:
`Timestamp.fromDate(new Date(item.date))` throws on an Invalid Date while
the insert batch is being built. -/
def envelopeDatesValid (data : AllDataExport) : Bool :=
  data.incomes.all (fun i => (jsParseDate i.date).isSome)
    && data.expenses.all (fun e => (jsParseDate e.date).isSome)
    && data.appointments.all (fun a => (jsParseDate a.date).isSome)

/-- The insert phase of `importAllData`: one batch containing every entry
of the envelope, incomes then expenses then appointments.  Each entry's
`id` is destructured away (`const { id, ...rest } = item`) and
`addBatch.set(doc(col), ...)` mints a fresh document id; an appointment's
description defaults to the empty string (`item.description || ""`).
Only invoked on envelopes whose dates all parse, so the `getD 0` default
is never exercised. -/
def applyEnvelope (st : Store) (data : AllDataExport) : Store :=
  let s1 := data.incomes.foldl (fun s i =>
    insertIncome s i.source i.amount ((jsParseDate i.date).getD 0)) st
  let s2 := data.expenses.foldl (fun s e =>
    insertExpense s e.category e.amount ((jsParseDate e.date).getD 0)) s1
  data.appointments.foldl (fun s a =>
    insertAppointment s a.title ((jsParseDate a.date).getD 0)
      (match a.description with
       | none => "" | some dd => if dd = "" then "" else dd)) s2

/-- `importAllData(data)`: delete all three collections, then commit one
batch inserting every entry of the envelope.  A `Timestamp.fromDate` throw
on any unparseable date happens while the batch is built, before the
commit, and propagates out of the `catch` (which logs and rethrows); the
deletions have already happened and the batch is never committed, so the
error state has all three collections empty. -/
def importAllData (st : Store) (data : AllDataExport) : Store × Except String Unit :=
  let st0 : Store := { st with incomes := [], expenses := [], appointments := [] }
  if envelopeDatesValid data then (applyEnvelope st0 data, .ok ())
  else (st0, .error "Timestamp.fromDate: invalid date")

/-- Rewrite every identifier of an envelope (used to state that the import
never reads them). -/
def mapEnvelopeIds (data : AllDataExport) (fI : String → String)
    (fE : String → String) (fA : String → String) : AllDataExport :=
  { incomes := data.incomes.map (fun i => { i with id := fI i.id }),
    expenses := data.expenses.map (fun e => { e with id := fE e.id }),
    appointments := data.appointments.map (fun a => { a with id := fA a.id }) }

/-! ### financial-insight-flow.ts -/

/-- A per-month entry of the insight input (`MonthlyDataSchema`). -/
structure MonthEntry where
  name : String
  income : ℚ
  expenses : ℚ
  deriving DecidableEq, Repr

/-- The flow input (`FinancialInsightInputSchema`); `monthlyData` is
optional. -/
structure FIInput where
  totalRevenue : ℚ
  totalExpenses : ℚ
  totalProfit : ℚ
  monthlyData : Option (List MonthEntry)
  deriving DecidableEq, Repr

/-- A monthly entry augmented with profit, as sent to the prompt. -/
structure MonthEntryWithProfit where
  name : String
  income : ℚ
  expenses : ℚ
  profit : ℚ
  deriving DecidableEq, Repr

/-- The data actually passed to the external prompt. -/
structure FIPromptInput where
  totalRevenue : ℚ
  totalExpenses : ℚ
  totalProfit : ℚ
  monthlyData : Option (List MonthEntryWithProfit)
  deriving DecidableEq, Repr

/-- The canned insight returned without contacting the external service. -/
def gettingStartedInsight : String :=
  "It looks like you're just getting started or haven't entered much financial data yet. Add some income and expenses to start seeing valuable insights!"

/-- `financialInsightFlow`, with the external text-generation service
abstracted as `promptFn` (`none` models a missing model output).  The
returned flag records whether the external service was invoked.  If all
three totals are zero and `monthlyData` is absent or empty, the flow
returns the canned message without calling `promptFn`; otherwise it
augments each month with its profit, calls the prompt, and errors when no
output comes back. -/
def financialInsightFlow (promptFn : FIPromptInput → Option String)
    (input : FIInput) : Except String String × Bool :=
  if input.totalRevenue = 0 ∧ input.totalExpenses = 0 ∧ input.totalProfit = 0
      ∧ (input.monthlyData = none ∨ input.monthlyData = some []) then
    (.ok gettingStartedInsight, false)
  else
    let processedMonthly : Option (List MonthEntryWithProfit) :=
      match input.monthlyData with
      | some l =>
        if l.length > 0 then
          some (l.map (fun m => ⟨m.name, m.income, m.expenses, m.income - m.expenses⟩))
        else some []
      | none => none
    match promptFn ⟨input.totalRevenue, input.totalExpenses, input.totalProfit,
                    processedMonthly⟩ with
    | some out => (.ok out, true)
    | none => (.error "Failed to generate financial insight. The AI model did not return an output.", true)

/-! ### Statement-side definitions -/

/-- The required header fields of each single-kind CSV import, as named by
the page's pre-check (income: source, amount, date; expense: category,
amount, date; appointment: title, date). -/
def requiredFields : CsvKind → List String
  | .incomes => ["source", "amount", "date"]
  | .expenses => ["category", "amount", "date"]
  | .appointments => ["title", "date"]

/-- The content of a stored income record, identifier aside. -/
def incomeContent (i : IncomeRec) : String × ℚ × Int := (i.source, i.amount, i.date)

/-- The content of a stored expense record, identifier aside. -/
def expenseContent (e : ExpenseRec) : String × ℚ × Int := (e.category, e.amount, e.date)

/-- The content of a stored appointment record, identifier aside. -/
def appointmentContent (a : AppointmentRec) : String × Int × String :=
  (a.title, a.date, a.description)

/-- What `parseCSV` makes of one data line: skipped when blank, a record
when the processed field count matches the header count, nothing (but a
warning) otherwise. -/
def recordOfLine (headers : List String) (line : String) : Option Obj :=
  if jsTrim line = "" then none
  else if ((splitFields line).map (fun f => String.mk (processField f.data))).length
      = headers.length then
    some (buildRecord headers
      ((splitFields line).map (fun f => String.mk (processField f.data))))
  else none

/-- Whether `parseCSV` warns about a data line: non-blank with a field
count different from the header count. -/
def lineMalformed (headers : List String) (line : String) : Bool :=
  !(jsTrim line == "")
    && !(((splitFields line).map (fun f => String.mk (processField f.data))).length
          == headers.length)

/-- Character-list join with a single-character separator. -/
def joinL (sep : Char) : List (List Char) → List Char
  | [] => []
  | [x] => x
  | x :: y :: t => x ++ sep :: joinL sep (y :: t)

/-- The field names of a record, in order. -/
def objKeys (o : Obj) : List String := (o : List (String × String)).map Prod.fst

/-- A field name that survives the CSV codec: nonempty, free of commas,
double quotes and line breaks, and invariant under `trim`. -/
def GoodHeader (h : String) : Prop :=
  h ≠ "" ∧ ',' ∉ h.data ∧ '"' ∉ h.data ∧ '\n' ∉ h.data ∧ jsTrim h = h

/-- A field value that survives the CSV codec: free of line breaks, and
either forced into quotes by a comma or double quote, or invariant under
the parser's per-field `trim`. -/
def GoodValue (v : String) : Prop :=
  '\n' ∉ v.data ∧ (',' ∈ v.data ∨ '"' ∈ v.data ∨ jsTrim v = v)

instance (h : String) : Decidable (GoodHeader h) :=
  inferInstanceAs (Decidable (h ≠ "" ∧ ',' ∉ h.data ∧ '"' ∉ h.data
    ∧ '\n' ∉ h.data ∧ jsTrim h = h))

instance (v : String) : Decidable (GoodValue v) :=
  inferInstanceAs (Decidable ('\n' ∉ v.data
    ∧ (',' ∈ v.data ∨ '"' ∈ v.data ∨ jsTrim v = v)))

/-! ### General helper lemmas -/

theorem foldl_add_map {α : Type} (f : α → ℚ) (l : List α) (a : ℚ) :
    l.foldl (fun s x => s + f x) a = a + (l.map f).sum := by
  induction l generalizing a with
  | nil => simp
  | cons x t ih => simp [ih, add_assoc]

theorem filterMap_length_of_isSome {α β : Type} (f : α → Option β) (l : List α)
    (h : ∀ a ∈ l, (f a).isSome) : (l.filterMap f).length = l.length := by
  induction l with
  | nil => rfl
  | cons x t ih =>
    have hx := h x (by simp)
    obtain ⟨b, hb⟩ := Option.isSome_iff_exists.mp hx
    simp [List.filterMap_cons, hb, ih fun a ha => h a (by simp [ha])]

/-! ### Claim C8: aggregate totals are derived sums -/

/-- C8: `totalRevenue` is the sum of all income amounts, `totalExpenses`
the sum of all expense amounts, `totalProfit` their difference; the totals
are functions of the current record lists (derived, not stored), so adding
an expense of amount `a` decreases `totalProfit` by exactly `a`. -/
theorem totals_are_derived_sums (st : Store) :
    totalRevenue st = (st.incomes.map IncomeRec.amount).sum
      ∧ totalExpenses st = (st.expenses.map ExpenseRec.amount).sum
      ∧ totalProfit st = totalRevenue st - totalExpenses st
      ∧ ∀ d : ExpenseFormData,
          totalProfit (addExpense st d) = totalProfit st - d.amount := by
  refine ⟨by simp [totalRevenue, foldl_add_map], by simp [totalExpenses, foldl_add_map],
    rfl, fun d => ?_⟩
  simp [totalProfit, totalRevenue, totalExpenses, addExpense, insertExpense, foldl_add_map]
  ring

/-! ### Claim C9: zero data bypasses the external summarizer -/

/-- C9: when all three totals are zero and the monthly data is absent or
empty, `financialInsightFlow` returns the canned getting-started insight
and never invokes the external text-generation service. -/
theorem insight_zero_bypasses_external (promptFn : FIPromptInput → Option String)
    (input : FIInput) (h1 : input.totalRevenue = 0) (h2 : input.totalExpenses = 0)
    (h3 : input.totalProfit = 0)
    (h4 : input.monthlyData = none ∨ input.monthlyData = some []) :
    financialInsightFlow promptFn input = (.ok gettingStartedInsight, false) := by
  unfold financialInsightFlow
  rw [if_pos ⟨h1, h2, h3, h4⟩]

theorem insight_zero_bypasses_external_witness :
    financialInsightFlow (fun _ => some "model output") ⟨0, 0, 0, none⟩
      = (.ok gettingStartedInsight, false) :=
  insight_zero_bypasses_external (fun _ => some "model output") ⟨0, 0, 0, none⟩
    rfl rfl rfl (Or.inl rfl)

/-! ### Claim C2: unified import failure behavior -/

/-- C2 (amended): the unified import issues three sequential deletions
(incomes, expenses, appointments) followed by a single combined insert
batch.  A failure at any step propagates to the caller as the backing
store's own error, with the steps already performed left in place: the
partially-replaced state is reachable, and the surfaced error is the
rethrown backend error, carrying no partial-import marker. -/
theorem unified_import_failure_modes (st : Store) (rows : List Obj) (e : String) :
    runUnifiedImport (failAt .delIncomes e) st rows = (st, .error e)
      ∧ runUnifiedImport (failAt .delExpenses e) st rows
          = ({ st with incomes := [] }, .error e)
      ∧ runUnifiedImport (failAt .delAppointments e) st rows
          = ({ st with incomes := [], expenses := [] }, .error e)
      ∧ runUnifiedImport (failAt .commitAdds e) st rows
          = ({ st with incomes := [], expenses := [], appointments := [] }, .error e)
      ∧ runUnifiedImport (fun _ => none) st rows
          = ((importAllDataFromUnifiedCSV st rows).1, .ok ()) :=
  ⟨rfl, rfl, rfl, rfl, rfl⟩

/-- C2 counterexample: two runs against a backend whose single failing
step rejects with the same error `"unavailable"` — once during the incomes
deletion and once during the expenses deletion — surface identical errors
to the caller although one leaves a partially-replaced state and the other
leaves the store untouched.  The failure is therefore not surfaced as a
distinguishable "partial import" error condition. -/
theorem unified_partial_failure_not_distinguishable :
    (runUnifiedImport (failAt .delExpenses "unavailable")
        ⟨[⟨"doc_0", "Sales", 100, 1⟩], [⟨"doc_1", "Rent", 40, 1⟩],
         [⟨"doc_2", "Meeting", 1, ""⟩], 3⟩ []).2
      = Except.error "unavailable"
    ∧ (runUnifiedImport (failAt .delIncomes "unavailable")
        ⟨[⟨"doc_0", "Sales", 100, 1⟩], [⟨"doc_1", "Rent", 40, 1⟩],
         [⟨"doc_2", "Meeting", 1, ""⟩], 3⟩ []).2
      = Except.error "unavailable"
    ∧ (runUnifiedImport (failAt .delExpenses "unavailable")
        ⟨[⟨"doc_0", "Sales", 100, 1⟩], [⟨"doc_1", "Rent", 40, 1⟩],
         [⟨"doc_2", "Meeting", 1, ""⟩], 3⟩ []).1
      ≠ (runUnifiedImport (failAt .delIncomes "unavailable")
        ⟨[⟨"doc_0", "Sales", 100, 1⟩], [⟨"doc_1", "Rent", 40, 1⟩],
         [⟨"doc_2", "Meeting", 1, ""⟩], 3⟩ []).1 :=
  ⟨rfl, rfl, by decide⟩

/-! ### Claim C6: malformed data lines are skipped, the rest parse -/

theorem parseCSVLoop_eq (headers : List String) (lines : List String) :
    parseCSVLoop headers lines
      = (lines.filterMap (recordOfLine headers), lines.filter (lineMalformed headers)) := by
  induction lines with
  | nil => rfl
  | cons l t ih =>
    simp only [parseCSVLoop, ih, List.filterMap_cons, List.filter_cons]
    by_cases hb : jsTrim l = ""
    · simp [recordOfLine, lineMalformed, hb]
    · by_cases hc : (splitFields l).length = headers.length
      · simp [recordOfLine, lineMalformed, hb, hc]
      · simp [recordOfLine, lineMalformed, hb, hc]

/-- C6: for every CSV text, the parsed records are exactly those of the
non-blank data lines whose processed field count matches the header count;
each non-blank line with a different field count contributes no record and
one logged warning; blank lines contribute neither. -/
theorem parseCSV_skips_malformed_lines (text hd : String) (tl : List String)
    (h : splitLines (jsTrim text) = hd :: tl) :
    parseCSV text = tl.filterMap (recordOfLine (headerNames hd))
      ∧ (parseCSVWithLog text).2 = tl.filter (lineMalformed (headerNames hd)) := by
  simp only [parseCSV, parseCSVWithLog, h, parseCSVLoop_eq]
  exact ⟨trivial, trivial⟩

theorem parseCSV_skips_malformed_lines_witness :
    parseCSV "a,b\n1,2\n3\n4,5"
        = (["1,2", "3", "4,5"].filterMap (recordOfLine (headerNames "a,b")))
      ∧ (parseCSVWithLog "a,b\n1,2\n3\n4,5").2
        = (["1,2", "3", "4,5"].filter (lineMalformed (headerNames "a,b"))) :=
  parseCSV_skips_malformed_lines "a,b\n1,2\n3\n4,5" "a,b" ["1,2", "3", "4,5"] (by decide)

/-! ### Claim C4: single-kind import replaces exactly one kind -/

theorem incomeRowStep_fold (rows : List Obj) (s : Store) :
    ((rows.foldl incomeRowStep s).incomes.map incomeContent
        = s.incomes.map incomeContent ++ rows.filterMap incomeRowData)
      ∧ (rows.foldl incomeRowStep s).expenses = s.expenses
      ∧ (rows.foldl incomeRowStep s).appointments = s.appointments := by
  induction rows generalizing s with
  | nil => simp
  | cons r t ih =>
    obtain ⟨ih1, ih2, ih3⟩ := ih (incomeRowStep s r)
    simp only [List.foldl_cons, List.filterMap_cons]
    cases hr : incomeRowData r with
    | none =>
      refine ⟨?_, ?_, ?_⟩
      · rw [ih1]; simp [incomeRowStep, hr]
      · rw [ih2]; simp [incomeRowStep, hr]
      · rw [ih3]; simp [incomeRowStep, hr]
    | some v =>
      obtain ⟨src, a, d⟩ := v
      refine ⟨?_, ?_, ?_⟩
      · rw [ih1]; simp [incomeRowStep, hr, insertIncome, incomeContent]
      · rw [ih2]; simp [incomeRowStep, hr, insertIncome]
      · rw [ih3]; simp [incomeRowStep, hr, insertIncome]

theorem expenseRowStep_fold (rows : List Obj) (s : Store) :
    ((rows.foldl expenseRowStep s).expenses.map expenseContent
        = s.expenses.map expenseContent ++ rows.filterMap expenseRowData)
      ∧ (rows.foldl expenseRowStep s).incomes = s.incomes
      ∧ (rows.foldl expenseRowStep s).appointments = s.appointments := by
  induction rows generalizing s with
  | nil => simp
  | cons r t ih =>
    obtain ⟨ih1, ih2, ih3⟩ := ih (expenseRowStep s r)
    simp only [List.foldl_cons, List.filterMap_cons]
    cases hr : expenseRowData r with
    | none =>
      refine ⟨?_, ?_, ?_⟩
      · rw [ih1]; simp [expenseRowStep, hr]
      · rw [ih2]; simp [expenseRowStep, hr]
      · rw [ih3]; simp [expenseRowStep, hr]
    | some v =>
      obtain ⟨c, a, d⟩ := v
      refine ⟨?_, ?_, ?_⟩
      · rw [ih1]; simp [expenseRowStep, hr, insertExpense, expenseContent]
      · rw [ih2]; simp [expenseRowStep, hr, insertExpense]
      · rw [ih3]; simp [expenseRowStep, hr, insertExpense]

theorem appointmentRowStep_fold (rows : List Obj) (s : Store) :
    ((rows.foldl appointmentRowStep s).appointments.map appointmentContent
        = s.appointments.map appointmentContent ++ rows.filterMap appointmentRowData)
      ∧ (rows.foldl appointmentRowStep s).incomes = s.incomes
      ∧ (rows.foldl appointmentRowStep s).expenses = s.expenses := by
  induction rows generalizing s with
  | nil => simp
  | cons r t ih =>
    obtain ⟨ih1, ih2, ih3⟩ := ih (appointmentRowStep s r)
    simp only [List.foldl_cons, List.filterMap_cons]
    cases hr : appointmentRowData r with
    | none =>
      refine ⟨?_, ?_, ?_⟩
      · rw [ih1]; simp [appointmentRowStep, hr]
      · rw [ih2]; simp [appointmentRowStep, hr]
      · rw [ih3]; simp [appointmentRowStep, hr]
    | some v =>
      obtain ⟨t', d, desc⟩ := v
      refine ⟨?_, ?_, ?_⟩
      · rw [ih1]; simp [appointmentRowStep, hr, insertAppointment, appointmentContent]
      · rw [ih2]; simp [appointmentRowStep, hr, insertAppointment]
      · rw [ih3]; simp [appointmentRowStep, hr, insertAppointment]

/-- C4: a single-kind CSV import leaves exactly the file's valid rows as
that kind's collection — whatever was stored before — and leaves the other
two kinds' collections unchanged; with `n` valid rows the collection holds
exactly `n` records afterwards. -/
theorem single_kind_import_replaces_only_its_kind :
    (∀ (st : Store) (rows : List Obj),
        (importIncomesFromCSV st rows).incomes.map incomeContent
            = rows.filterMap incomeRowData
          ∧ (importIncomesFromCSV st rows).expenses = st.expenses
          ∧ (importIncomesFromCSV st rows).appointments = st.appointments
          ∧ ((∀ r ∈ rows, (incomeRowData r).isSome) →
              (importIncomesFromCSV st rows).incomes.length = rows.length))
    ∧ (∀ (st : Store) (rows : List Obj),
        (importExpensesFromCSV st rows).expenses.map expenseContent
            = rows.filterMap expenseRowData
          ∧ (importExpensesFromCSV st rows).incomes = st.incomes
          ∧ (importExpensesFromCSV st rows).appointments = st.appointments
          ∧ ((∀ r ∈ rows, (expenseRowData r).isSome) →
              (importExpensesFromCSV st rows).expenses.length = rows.length))
    ∧ (∀ (st : Store) (rows : List Obj),
        (importAppointmentsFromCSV st rows).appointments.map appointmentContent
            = rows.filterMap appointmentRowData
          ∧ (importAppointmentsFromCSV st rows).incomes = st.incomes
          ∧ (importAppointmentsFromCSV st rows).expenses = st.expenses
          ∧ ((∀ r ∈ rows, (appointmentRowData r).isSome) →
              (importAppointmentsFromCSV st rows).appointments.length = rows.length)) := by
  refine ⟨fun st rows => ?_, fun st rows => ?_, fun st rows => ?_⟩
  · obtain ⟨h1, h2, h3⟩ := incomeRowStep_fold rows { st with incomes := [] }
    simp only [importIncomesFromCSV] at h1 h2 h3 ⊢
    simp only [List.map_nil, List.nil_append] at h1
    refine ⟨h1, h2, h3, fun hv => ?_⟩
    have := congrArg List.length h1
    simpa [filterMap_length_of_isSome incomeRowData rows hv] using this
  · obtain ⟨h1, h2, h3⟩ := expenseRowStep_fold rows { st with expenses := [] }
    simp only [importExpensesFromCSV] at h1 h2 h3 ⊢
    simp only [List.map_nil, List.nil_append] at h1
    refine ⟨h1, h2, h3, fun hv => ?_⟩
    have := congrArg List.length h1
    simpa [filterMap_length_of_isSome expenseRowData rows hv] using this
  · obtain ⟨h1, h2, h3⟩ := appointmentRowStep_fold rows { st with appointments := [] }
    simp only [importAppointmentsFromCSV] at h1 h2 h3 ⊢
    simp only [List.map_nil, List.nil_append] at h1
    refine ⟨h1, h2, h3, fun hv => ?_⟩
    have := congrArg List.length h1
    simpa [filterMap_length_of_isSome appointmentRowData rows hv] using this

theorem single_kind_import_replaces_only_its_kind_witness :
    (importIncomesFromCSV
        ⟨[⟨"doc_0", "Old1", 10, 1⟩, ⟨"doc_1", "Old2", 20, 2⟩, ⟨"doc_2", "Old3", 30, 3⟩,
          ⟨"doc_3", "Old4", 40, 4⟩, ⟨"doc_4", "Old5", 50, 5⟩],
         [⟨"doc_5", "Rent", 40, 1⟩], [⟨"doc_6", "Meeting", 1, "x"⟩], 7⟩
        [[("source", "A"), ("amount", "100"), ("date", "2024-01-15")],
         [("source", "B"), ("amount", "50"), ("date", "2024-02-20")]]).incomes.length = 2
    ∧ (importIncomesFromCSV
        ⟨[⟨"doc_0", "Old1", 10, 1⟩, ⟨"doc_1", "Old2", 20, 2⟩, ⟨"doc_2", "Old3", 30, 3⟩,
          ⟨"doc_3", "Old4", 40, 4⟩, ⟨"doc_4", "Old5", 50, 5⟩],
         [⟨"doc_5", "Rent", 40, 1⟩], [⟨"doc_6", "Meeting", 1, "x"⟩], 7⟩
        [[("source", "A"), ("amount", "100"), ("date", "2024-01-15")],
         [("source", "B"), ("amount", "50"), ("date", "2024-02-20")]]).expenses
      = [⟨"doc_5", "Rent", 40, 1⟩]
    ∧ (importIncomesFromCSV
        ⟨[⟨"doc_0", "Old1", 10, 1⟩, ⟨"doc_1", "Old2", 20, 2⟩, ⟨"doc_2", "Old3", 30, 3⟩,
          ⟨"doc_3", "Old4", 40, 4⟩, ⟨"doc_4", "Old5", 50, 5⟩],
         [⟨"doc_5", "Rent", 40, 1⟩], [⟨"doc_6", "Meeting", 1, "x"⟩], 7⟩
        [[("source", "A"), ("amount", "100"), ("date", "2024-01-15")],
         [("source", "B"), ("amount", "50"), ("date", "2024-02-20")]]).appointments
      = [⟨"doc_6", "Meeting", 1, "x"⟩] := by
  have h := single_kind_import_replaces_only_its_kind.1
    ⟨[⟨"doc_0", "Old1", 10, 1⟩, ⟨"doc_1", "Old2", 20, 2⟩, ⟨"doc_2", "Old3", 30, 3⟩,
      ⟨"doc_3", "Old4", 40, 4⟩, ⟨"doc_4", "Old5", 50, 5⟩],
     [⟨"doc_5", "Rent", 40, 1⟩], [⟨"doc_6", "Meeting", 1, "x"⟩], 7⟩
    [[("source", "A"), ("amount", "100"), ("date", "2024-01-15")],
     [("source", "B"), ("amount", "50"), ("date", "2024-02-20")]]
  exact ⟨h.2.2.2 (by decide), h.2.1, h.2.2.1⟩

/-! ### Claim C1: missing required headers reject the import untouched -/

/-- C1: when the first parsed row of a single-kind CSV import lacks any of
that kind's required fields (income: source, amount, date; expense:
category, amount, date; appointment: title, date), the pipeline rejects
the file as malformed and returns the store unchanged — no deletion of any
kind's records happens. -/
theorem bad_headers_rejected_before_deletion (k : CsvKind) (text : String)
    (st : Store) (r0 : Obj) (rest : List Obj) (hp : parseCSV text = r0 :: rest)
    (f : String) (hf : f ∈ requiredFields k) (hmiss : objGet r0 f = none) :
    runCsvImport k text st = (st, some "Invalid CSV format. Missing required headers.") := by
  have hv : csvHeadersValid k r0 = false := by
    cases k <;> simp only [requiredFields, List.mem_cons, List.mem_singleton,
      List.not_mem_nil, or_false] at hf <;>
      rcases hf with rfl | rfl | rfl <;> simp [csvHeadersValid, hmiss]
  unfold runCsvImport
  rw [hp]
  simp [hv]

theorem bad_headers_rejected_before_deletion_witness :
    runCsvImport .incomes "source,date\nAcme,2024-01-15"
        ⟨[⟨"doc_0", "Old", 10, 1⟩], [⟨"doc_1", "Rent", 40, 1⟩],
         [⟨"doc_2", "Meeting", 1, ""⟩], 3⟩
      = (⟨[⟨"doc_0", "Old", 10, 1⟩], [⟨"doc_1", "Rent", 40, 1⟩],
          [⟨"doc_2", "Meeting", 1, ""⟩], 3⟩,
         some "Invalid CSV format. Missing required headers.") :=
  bad_headers_rejected_before_deletion .incomes "source,date\nAcme,2024-01-15"
    ⟨[⟨"doc_0", "Old", 10, 1⟩], [⟨"doc_1", "Rent", 40, 1⟩],
     [⟨"doc_2", "Meeting", 1, ""⟩], 3⟩
    [("source", "Acme"), ("date", "2024-01-15")] [] (by decide)
    "amount" (by decide) (by decide)

/-! ### Claim C5: unified dispatch by the type discriminator -/

theorem unifiedIncomeBranch_frame (st : Store) (r : Obj) (d : Int) :
    (unifiedIncomeBranch st r d).1.expenses = st.expenses
      ∧ (unifiedIncomeBranch st r d).1.appointments = st.appointments := by
  unfold unifiedIncomeBranch
  rcases objGet r "source" with _ | s <;> rcases unifiedAmount r with _ | a <;> simp
  split <;> simp [insertIncome]

theorem unifiedExpenseBranch_frame (st : Store) (r : Obj) (d : Int) :
    (unifiedExpenseBranch st r d).1.incomes = st.incomes
      ∧ (unifiedExpenseBranch st r d).1.appointments = st.appointments := by
  unfold unifiedExpenseBranch
  rcases objGet r "category" with _ | c <;> rcases unifiedAmount r with _ | a <;> simp
  split <;> simp [insertExpense]

theorem unifiedAppointmentBranch_frame (st : Store) (r : Obj) (d : Int) :
    (unifiedAppointmentBranch st r d).1.incomes = st.incomes
      ∧ (unifiedAppointmentBranch st r d).1.expenses = st.expenses := by
  unfold unifiedAppointmentBranch
  rcases objGet r "title" with _ | t <;> simp
  split <;> simp [insertAppointment]

/-- C5: in the unified import, a row whose date does not parse is skipped
with an invalid-date warning regardless of its `type` (the date check
precedes the dispatch); a row with a parseable date is dispatched on its
lowercased `type` discriminator to the income / expense / appointment
insertion branch, which can only touch that kind's collection; any other
discriminator (including a missing one) skips the row with an
unknown-type warning and leaves every collection unchanged. -/
theorem unified_rows_dispatched_by_type (st : Store) (r : Obj) :
    (jsParseDateOpt (objGet r "date") = none →
        applyUnifiedRow st r = (st, some (.invalidDate r)))
  ∧ (∀ d, jsParseDateOpt (objGet r "date") = some d →
      ((objGet r "type").map jsToLower ≠ some "income" →
       (objGet r "type").map jsToLower ≠ some "expense" →
       (objGet r "type").map jsToLower ≠ some "appointment" →
        applyUnifiedRow st r = (st, some (.unknownType r)))
      ∧ ((objGet r "type").map jsToLower = some "income" →
          applyUnifiedRow st r = unifiedIncomeBranch st r d
            ∧ (applyUnifiedRow st r).1.expenses = st.expenses
            ∧ (applyUnifiedRow st r).1.appointments = st.appointments)
      ∧ ((objGet r "type").map jsToLower = some "expense" →
          applyUnifiedRow st r = unifiedExpenseBranch st r d
            ∧ (applyUnifiedRow st r).1.incomes = st.incomes
            ∧ (applyUnifiedRow st r).1.appointments = st.appointments)
      ∧ ((objGet r "type").map jsToLower = some "appointment" →
          applyUnifiedRow st r = unifiedAppointmentBranch st r d
            ∧ (applyUnifiedRow st r).1.incomes = st.incomes
            ∧ (applyUnifiedRow st r).1.expenses = st.expenses)) := by
  constructor
  · intro h
    simp [applyUnifiedRow, h]
  · intro d hd
    refine ⟨?_, ?_, ?_, ?_⟩
    · intro hni hne hna
      simp [applyUnifiedRow, hd, hni, hne, hna]
    · intro hty
      have he : applyUnifiedRow st r = unifiedIncomeBranch st r d := by
        simp [applyUnifiedRow, hd, hty]
      rw [he]
      exact ⟨rfl, (unifiedIncomeBranch_frame st r d).1, (unifiedIncomeBranch_frame st r d).2⟩
    · intro hty
      have hne : (objGet r "type").map jsToLower ≠ some "income" := by
        rw [hty]; decide
      have he : applyUnifiedRow st r = unifiedExpenseBranch st r d := by
        simp [applyUnifiedRow, hd, hty]
      rw [he]
      exact ⟨rfl, (unifiedExpenseBranch_frame st r d).1, (unifiedExpenseBranch_frame st r d).2⟩
    · intro hty
      have he : applyUnifiedRow st r = unifiedAppointmentBranch st r d := by
        simp [applyUnifiedRow, hd, hty]
      rw [he]
      exact ⟨rfl, (unifiedAppointmentBranch_frame st r d).1,
        (unifiedAppointmentBranch_frame st r d).2⟩

theorem unified_rows_dispatched_by_type_witness :
    applyUnifiedRow ⟨[], [], [], 0⟩ [("type", "income"), ("date", "not-a-date")]
        = (⟨[], [], [], 0⟩,
           some (.invalidDate [("type", "income"), ("date", "not-a-date")]))
    ∧ applyUnifiedRow ⟨[], [], [], 0⟩ [("type", "mystery"), ("date", "2024-01-15")]
        = (⟨[], [], [], 0⟩,
           some (.unknownType [("type", "mystery"), ("date", "2024-01-15")]))
    ∧ applyUnifiedRow ⟨[], [], [], 0⟩
          [("type", "Income"), ("source", "Sales"), ("amount", "100"), ("date", "2024-01-15")]
        = unifiedIncomeBranch ⟨[], [], [], 0⟩
            [("type", "Income"), ("source", "Sales"), ("amount", "100"), ("date", "2024-01-15")]
            (msEncode 2024 1 15 0 0 0 0) := by
  refine ⟨?_, ?_, ?_⟩
  · exact (unified_rows_dispatched_by_type ⟨[], [], [], 0⟩
      [("type", "income"), ("date", "not-a-date")]).1 (by decide)
  · exact (((unified_rows_dispatched_by_type ⟨[], [], [], 0⟩
      [("type", "mystery"), ("date", "2024-01-15")]).2 (msEncode 2024 1 15 0 0 0 0)
        (by decide)).1 (by decide) (by decide) (by decide))
  · exact ((((unified_rows_dispatched_by_type ⟨[], [], [], 0⟩
      [("type", "Income"), ("source", "Sales"), ("amount", "100"),
       ("date", "2024-01-15")]).2 (msEncode 2024 1 15 0 0 0 0)
        (by decide)).2.1 (by decide)).1)

/-! ### Claim C10: empty amount — unified inserts 0, single-kind skips -/

/-- C10: in the unified import an income or expense row whose `amount`
field is missing or empty is not skipped — the amount is falsy, so it
defaults to `0` and the record is inserted with amount `0`; the same row
would be rejected by the single-kind CSV import, whose
`parseFloat(row.amount)` yields `NaN` for a missing or empty field. -/
theorem unified_empty_amount_inserts_zero :
    (∀ (st : Store) (r : Obj) (s : String) (d : Int),
        objGet r "source" = some s → s ≠ "" →
        (objGet r "amount" = none ∨ objGet r "amount" = some "") →
        jsParseDateOpt (objGet r "date") = some d →
        (objGet r "type").map jsToLower = some "income" →
          applyUnifiedRow st r = (insertIncome st s 0 d, none)
            ∧ incomeRowData r = none)
  ∧ (∀ (st : Store) (r : Obj) (c : String) (d : Int),
        objGet r "category" = some c → c ≠ "" →
        (objGet r "amount" = none ∨ objGet r "amount" = some "") →
        jsParseDateOpt (objGet r "date") = some d →
        (objGet r "type").map jsToLower = some "expense" →
          applyUnifiedRow st r = (insertExpense st c 0 d, none)
            ∧ expenseRowData r = none) := by
  constructor
  · intro st r s d hsrc hs hamt hd hty
    have hfalsy : rowTruthy r "amount" = false := by
      rcases hamt with h | h <;> simp [rowTruthy, h]
    have hzero : unifiedAmount r = some 0 := by simp [unifiedAmount, hfalsy]
    have hnan : jsParseFloatOpt (objGet r "amount") = none := by
      rcases hamt with h | h <;> rw [h] <;> rfl
    constructor
    · simp [applyUnifiedRow, hd, hty, unifiedIncomeBranch, hsrc, hzero, hs]
    · simp [incomeRowData, hsrc, hnan]
  · intro st r c d hcat hc hamt hd hty
    have hfalsy : rowTruthy r "amount" = false := by
      rcases hamt with h | h <;> simp [rowTruthy, h]
    have hzero : unifiedAmount r = some 0 := by simp [unifiedAmount, hfalsy]
    have hnan : jsParseFloatOpt (objGet r "amount") = none := by
      rcases hamt with h | h <;> rw [h] <;> rfl
    have hne : (objGet r "type").map jsToLower ≠ some "income" := by
      rw [hty]; decide
    constructor
    · simp [applyUnifiedRow, hd, hty, unifiedExpenseBranch, hcat, hzero, hc]
    · simp [expenseRowData, hcat, hnan]

theorem unified_empty_amount_inserts_zero_witness :
    applyUnifiedRow ⟨[], [], [], 0⟩
        [("type", "income"), ("source", "Sales"), ("amount", ""), ("date", "2024-01-15")]
      = (insertIncome ⟨[], [], [], 0⟩ "Sales" 0 (msEncode 2024 1 15 0 0 0 0), none)
    ∧ incomeRowData
        [("type", "income"), ("source", "Sales"), ("amount", ""), ("date", "2024-01-15")]
      = none :=
  (unified_empty_amount_inserts_zero.1 ⟨[], [], [], 0⟩
    [("type", "income"), ("source", "Sales"), ("amount", ""), ("date", "2024-01-15")]
    "Sales" (msEncode 2024 1 15 0 0 0 0)
    (by decide) (by decide) (Or.inr (by decide)) (by decide) (by decide))

/-! ### Claim C7: JSON import discards file ids and mints fresh ones -/

theorem foldl_invariant {α β : Type _} (P : β → Prop) (f : β → α → β) (l : List α)
    (b : β) (hb : P b) (hstep : ∀ b a, P b → P (f b a)) : P (l.foldl f b) := by
  induction l generalizing b with
  | nil => exact hb
  | cons x t ih => exact ih _ (hstep b x hb)

theorem mintId_ne_old (n : Nat) : mintId n ≠ "old-123" := by
  intro h
  have h' : ("doc_" ++ Nat.repr n).data = "old-123".data := congrArg String.data h
  rw [String.data_append] at h'
  have hd : "doc_".data = ['d', 'o', 'c', '_'] := rfl
  have ho : "old-123".data = ['o', 'l', 'd', '-', '1', '2', '3'] := rfl
  rw [hd, ho] at h'
  simp at h'

/-- All records of a store carry store-minted identifiers. -/
def AllMinted (s : Store) : Prop :=
  (∀ i ∈ s.incomes, ∃ n, i.id = mintId n)
    ∧ (∀ e ∈ s.expenses, ∃ n, e.id = mintId n)
    ∧ (∀ a ∈ s.appointments, ∃ n, a.id = mintId n)

theorem applyEnvelope_minted (st : Store) (data : AllDataExport) (h : AllMinted st) :
    AllMinted (applyEnvelope st data) := by
  unfold applyEnvelope
  apply foldl_invariant AllMinted _ _ _ (foldl_invariant AllMinted _ _ _
    (foldl_invariant AllMinted _ _ _ h ?_) ?_) ?_
  · intro b a hb
    refine ⟨fun i hi => ?_, fun e he => hb.2.1 e he, fun x hx => hb.2.2 x hx⟩
    simp only [insertIncome, List.mem_append, List.mem_singleton] at hi
    rcases hi with hi | rfl
    · exact hb.1 i hi
    · exact ⟨b.nextId, rfl⟩
  · intro b a hb
    refine ⟨fun i hi => hb.1 i hi, fun e he => ?_, fun x hx => hb.2.2 x hx⟩
    simp only [insertExpense, List.mem_append, List.mem_singleton] at he
    rcases he with he | rfl
    · exact hb.2.1 e he
    · exact ⟨b.nextId, rfl⟩
  · intro b a hb
    refine ⟨fun i hi => hb.1 i hi, fun e he => hb.2.1 e he, fun x hx => ?_⟩
    simp only [insertAppointment, List.mem_append, List.mem_singleton] at hx
    rcases hx with hx | rfl
    · exact hb.2.2 x hx
    · exact ⟨b.nextId, rfl⟩

/-- C7: `importAllData` never reads the identifiers in the envelope —
rewriting them arbitrarily yields the same result — and every record it
stores carries a freshly minted store identifier; in particular a record
imported with file id `"old-123"` is stored under a different id. -/
theorem json_import_discards_ids_and_mints_fresh (st : Store) (data : AllDataExport) :
    (∀ fI fE fA, importAllData st (mapEnvelopeIds data fI fE fA) = importAllData st data)
  ∧ (∀ i ∈ (importAllData st data).1.incomes, (∃ n, i.id = mintId n) ∧ i.id ≠ "old-123")
  ∧ (∀ e ∈ (importAllData st data).1.expenses, (∃ n, e.id = mintId n) ∧ e.id ≠ "old-123")
  ∧ (∀ a ∈ (importAllData st data).1.appointments,
        (∃ n, a.id = mintId n) ∧ a.id ≠ "old-123") := by
  have hminted : AllMinted (importAllData st data).1 := by
    unfold importAllData
    by_cases hv : envelopeDatesValid data
    · simp only [hv, if_pos]
      exact applyEnvelope_minted _ data ⟨by simp, by simp, by simp⟩
    · simp only [hv, if_neg, Bool.false_eq_true]
      exact ⟨by simp, by simp, by simp⟩
  refine ⟨fun fI fE fA => ?_, fun i hi => ?_, fun e he => ?_, fun a ha => ?_⟩
  · simp [importAllData, envelopeDatesValid, applyEnvelope, mapEnvelopeIds,
      List.all_map, List.foldl_map, Function.comp]
  · obtain ⟨n, hn⟩ := hminted.1 i hi
    exact ⟨⟨n, hn⟩, hn ▸ mintId_ne_old n⟩
  · obtain ⟨n, hn⟩ := hminted.2.1 e he
    exact ⟨⟨n, hn⟩, hn ▸ mintId_ne_old n⟩
  · obtain ⟨n, hn⟩ := hminted.2.2 a ha
    exact ⟨⟨n, hn⟩, hn ▸ mintId_ne_old n⟩

theorem json_import_discards_ids_and_mints_fresh_witness :
    (∃ n, ("doc_0" : String) = mintId n) ∧ ("doc_0" : String) ≠ "old-123" := by
  have h := (json_import_discards_ids_and_mints_fresh ⟨[], [], [], 0⟩
      ⟨[⟨"old-123", "Sales", 100, "2024-01-15"⟩], [], []⟩).2.1
      ⟨"doc_0", "Sales", 100, msEncode 2024 1 15 0 0 0 0⟩ (by decide)
  exact h

/-! ### Claim C3: CSV round-trip — trim and splitter lemmas -/

theorem length_dropWhile_le (p : Char → Bool) (l : List Char) :
    (l.dropWhile p).length ≤ l.length := by
  induction l with
  | nil => simp
  | cons c t ih =>
    by_cases h : p c
    · rw [List.dropWhile_cons, if_pos h]
      exact Nat.le_succ_of_le ih
    · rw [List.dropWhile_cons, if_neg h]

theorem dropWhile_head_not (p : Char → Bool) (l : List Char)
    (h : ∀ c ∈ l.head?, p c = false) : l.dropWhile p = l := by
  cases l with
  | nil => rfl
  | cons c t => rw [List.dropWhile_cons, if_neg (by simp [h c (by simp)])]

theorem jsTrimL_eq_self (cs : List Char)
    (h1 : ∀ c ∈ cs.head?, jsIsSpace c = false)
    (h2 : ∀ c ∈ cs.getLast?, jsIsSpace c = false) : jsTrimL cs = cs := by
  unfold jsTrimL
  rw [dropWhile_head_not jsIsSpace cs h1]
  rw [dropWhile_head_not jsIsSpace cs.reverse
    (by intro c hc; rw [List.head?_reverse] at hc; exact h2 c hc)]
  exact List.reverse_reverse cs

theorem head_not_space_of_trim (cs : List Char) (h : jsTrimL cs = cs) :
    ∀ c ∈ cs.head?, jsIsSpace c = false := by
  intro c hc
  cases cs with
  | nil => simp at hc
  | cons a t =>
    have ha : a = c := by simpa using hc
    subst ha
    by_contra hs
    have hs' : jsIsSpace a = true := by simpa using hs
    have hlen : (jsTrimL (a :: t)).length ≤ t.length := by
      unfold jsTrimL
      rw [List.dropWhile_cons, if_pos hs']
      calc ((t.dropWhile jsIsSpace).reverse.dropWhile jsIsSpace).reverse.length
          = ((t.dropWhile jsIsSpace).reverse.dropWhile jsIsSpace).length :=
            List.length_reverse _
        _ ≤ (t.dropWhile jsIsSpace).reverse.length := length_dropWhile_le _ _
        _ = (t.dropWhile jsIsSpace).length := List.length_reverse _
        _ ≤ t.length := length_dropWhile_le _ _
    rw [h] at hlen
    simp at hlen

theorem getLast_not_space_of_trim (cs : List Char) (h : jsTrimL cs = cs) :
    ∀ c ∈ cs.getLast?, jsIsSpace c = false := by
  intro c hc
  by_contra hs
  have hs' : jsIsSpace c = true := by simpa using hs
  have hne : cs ≠ [] := by intro e; subst e; simp at hc
  have hlen1 : (cs.dropWhile jsIsSpace).length ≤ cs.length := length_dropWhile_le _ _
  cases hdn : cs.dropWhile jsIsSpace with
  | nil =>
    have hnil : jsTrimL cs = [] := by unfold jsTrimL; rw [hdn]; rfl
    rw [h] at hnil
    exact hne hnil
  | cons a t =>
    have hdne : cs.dropWhile jsIsSpace ≠ [] := by rw [hdn]; simp
    have hlast : (cs.dropWhile jsIsSpace).getLast? = some c := by
      have hsplit := List.takeWhile_append_dropWhile (p := jsIsSpace) (l := cs)
      conv at hc => rw [← hsplit]
      rwa [List.getLast?_append_of_ne_nil _ hdne] at hc
    have hhead : (cs.dropWhile jsIsSpace).reverse.head? = some c := by
      rw [List.head?_reverse]; exact hlast
    have hshrink : ((cs.dropWhile jsIsSpace).reverse.dropWhile jsIsSpace).length
        < (cs.dropWhile jsIsSpace).length := by
      cases hr : (cs.dropWhile jsIsSpace).reverse with
      | nil => exact absurd (by simpa using congrArg List.reverse hr) hdne
      | cons b u =>
        have hb : b = c := by rw [hr] at hhead; simpa using hhead
        subst hb
        rw [List.dropWhile_cons, if_pos hs']
        have h1 := length_dropWhile_le jsIsSpace u
        have h2 : (cs.dropWhile jsIsSpace).length = u.length + 1 := by
          have := congrArg List.length hr
          simpa using this
        omega
    have hfin : (jsTrimL cs).length < cs.length := by
      unfold jsTrimL
      calc ((cs.dropWhile jsIsSpace).reverse.dropWhile jsIsSpace).reverse.length
          = ((cs.dropWhile jsIsSpace).reverse.dropWhile jsIsSpace).length :=
            List.length_reverse _
        _ < (cs.dropWhile jsIsSpace).length := hshrink
        _ ≤ cs.length := hlen1
    rw [h] at hfin
    omega

theorem joinL_concat (sep : Char) (ls : List (List Char)) (x : List Char) (h : ls ≠ []) :
    joinL sep (ls ++ [x]) = joinL sep ls ++ sep :: x := by
  induction ls with
  | nil => exact absurd rfl h
  | cons a t ih =>
    cases t with
    | nil => simp [joinL]
    | cons b u =>
      have hih := ih (by simp)
      calc joinL sep ((a :: b :: u) ++ [x])
          = a ++ sep :: joinL sep ((b :: u) ++ [x]) := rfl
        _ = a ++ sep :: (joinL sep (b :: u) ++ sep :: x) := by rw [hih]
        _ = (a ++ sep :: joinL sep (b :: u)) ++ sep :: x := by simp

theorem mem_joinL {c sep : Char} {ls : List (List Char)} (h : c ∈ joinL sep ls) :
    c = sep ∨ ∃ l ∈ ls, c ∈ l := by
  induction ls with
  | nil => simp [joinL] at h
  | cons a t ih =>
    cases t with
    | nil =>
      simp only [joinL] at h
      exact Or.inr ⟨a, by simp, h⟩
    | cons b u =>
      simp only [joinL, List.mem_append, List.mem_cons] at h
      rcases h with h | h | h
      · exact Or.inr ⟨a, by simp, h⟩
      · exact Or.inl h
      · rcases ih h with h' | ⟨l, hl, hcl⟩
        · exact Or.inl h'
        · exact Or.inr ⟨l, by simp [hl], hcl⟩

theorem joinL_head_cons (sep c : Char) (xr : List Char) (xs : List (List Char)) :
    (joinL sep ((c :: xr) :: xs)).head? = some c := by
  cases xs with
  | nil => rfl
  | cons y t => rfl

theorem joinL_head_nil (sep : Char) (xs : List (List Char)) (h : xs ≠ []) :
    (joinL sep ([] :: xs)).head? = some sep := by
  cases xs with
  | nil => exact absurd rfl h
  | cons y t => rfl

theorem joinL_getLast_concat_ne (sep : Char) (ls : List (List Char)) (x : List Char)
    (hls : ls ≠ []) (hx : x ≠ []) :
    (joinL sep (ls ++ [x])).getLast? = x.getLast? := by
  rw [joinL_concat sep ls x hls]
  rw [List.getLast?_append_of_ne_nil _ (by simp)]
  have hrepr : sep :: x = [sep] ++ x := rfl
  rw [hrepr, List.getLast?_append_of_ne_nil _ hx]

theorem joinL_getLast_concat_nil (sep : Char) (ls : List (List Char)) (hls : ls ≠ []) :
    (joinL sep (ls ++ [([] : List Char)])).getLast? = some sep := by
  rw [joinL_concat sep ls [] hls]
  simp

theorem splitOnChar_cons (sep c : Char) (rest acc : List Char) :
    splitOnChar sep (c :: rest) acc
      = if c = sep then acc.reverse :: splitOnChar sep rest []
        else splitOnChar sep rest (c :: acc) := rfl

theorem splitOnChar_pass (sep : Char) (l : List Char) (hl : sep ∉ l) :
    ∀ cs acc, splitOnChar sep (l ++ sep :: cs) acc
      = (acc.reverse ++ l) :: splitOnChar sep cs [] := by
  induction l with
  | nil => intro cs acc; simp [splitOnChar]
  | cons c t ih =>
    intro cs acc
    have hc : ¬(c = sep) := fun e => hl (by simp [e])
    have ht : sep ∉ t := fun m => hl (by simp [m])
    rw [List.cons_append, splitOnChar_cons, if_neg hc, ih ht cs (c :: acc)]
    simp

theorem splitOnChar_last (sep : Char) (l : List Char) (hl : sep ∉ l) :
    ∀ acc, splitOnChar sep l acc = [acc.reverse ++ l] := by
  induction l with
  | nil => intro acc; simp [splitOnChar]
  | cons c t ih =>
    intro acc
    have hc : ¬(c = sep) := fun e => hl (by simp [e])
    have ht : sep ∉ t := fun m => hl (by simp [m])
    rw [splitOnChar_cons, if_neg hc, ih ht (c :: acc)]
    simp

theorem splitOnChar_joinL (sep : Char) (ls : List (List Char))
    (h : ∀ l ∈ ls, sep ∉ l) (hne : ls ≠ []) :
    splitOnChar sep (joinL sep ls) [] = ls := by
  induction ls with
  | nil => exact absurd rfl hne
  | cons x t ih =>
    cases t with
    | nil => simp [joinL, splitOnChar_last sep x (h x (by simp)) []]
    | cons y u =>
      simp only [joinL]
      rw [splitOnChar_pass sep x (h x (by simp)) _ []]
      simp only [List.reverse_nil, List.nil_append]
      rw [ih (fun l hl => h l (by simp [hl])) (by simp)]

theorem stripCRs_eq_self (ls : List (List Char))
    (h : ∀ l ∈ ls, l.getLast? ≠ some '\r') : stripCRs ls = ls := by
  induction ls with
  | nil => rfl
  | cons x t ih =>
    cases t with
    | nil => rfl
    | cons y u =>
      simp only [stripCRs]
      rw [ih (fun l hl => h l (by simp [hl]))]
      unfold dropTrailingCR
      rw [if_neg (h x (by simp))]

theorem splitLinesL_joinL (ls : List (List Char)) (hne : ls ≠ [])
    (h1 : ∀ l ∈ ls, '\n' ∉ l) (h2 : ∀ l ∈ ls, l.getLast? ≠ some '\r') :
    splitLinesL (joinL '\n' ls) = ls := by
  unfold splitLinesL
  rw [splitOnChar_joinL '\n' ls h1 hne, stripCRs_eq_self ls h2]

/-! ### Claim C3: field splitting and quoting lemmas -/

theorem countQuotes_append (a b : List Char) :
    countQuotes (a ++ b) = countQuotes a + countQuotes b :=
  List.countP_append _ _ _

theorem countQuotes_cons_ne (c : Char) (l : List Char) (h : ¬(c = '"')) :
    countQuotes (c :: l) = countQuotes l := by
  simp [countQuotes, List.countP_cons, h]

theorem splitFieldsAux_cons (c : Char) (rest acc : List Char) :
    splitFieldsAux (c :: rest) acc
      = if c = ',' ∧ countQuotes rest % 2 = 0 then acc.reverse :: splitFieldsAux rest []
        else splitFieldsAux rest (c :: acc) := rfl

theorem splitFieldsAux_pass (e : List Char)
    (hP : ∀ x y, e = x ++ ',' :: y → countQuotes y % 2 = 1) :
    ∀ cs acc, countQuotes cs % 2 = 0 →
      splitFieldsAux (e ++ cs) acc = splitFieldsAux cs (e.reverse ++ acc) := by
  induction e with
  | nil => intro cs acc _; simp
  | cons c t ih =>
    intro cs acc hcs
    have hlift : ∀ x y, t = x ++ ',' :: y → countQuotes y % 2 = 1 := by
      intro x y hxy
      exact hP (c :: x) y (by rw [hxy]; rfl)
    by_cases hc : c = ','
    · subst hc
      have hodd : countQuotes t % 2 = 1 := hP [] t rfl
      have hcon : ¬(countQuotes (t ++ cs) % 2 = 0) := by
        rw [countQuotes_append]; omega
      rw [List.cons_append, splitFieldsAux_cons, if_neg (by simp [hcon]),
        ih hlift cs (',' :: acc) hcs]
      simp
    · rw [List.cons_append, splitFieldsAux_cons, if_neg (by simp [hc]),
        ih hlift cs (c :: acc) hcs]
      simp

theorem splitFieldsAux_last (e : List Char)
    (hP : ∀ x y, e = x ++ ',' :: y → countQuotes y % 2 = 1) :
    ∀ acc, splitFieldsAux e acc = [acc.reverse ++ e] := by
  induction e with
  | nil => intro acc; simp [splitFieldsAux]
  | cons c t ih =>
    intro acc
    have hlift : ∀ x y, t = x ++ ',' :: y → countQuotes y % 2 = 1 := by
      intro x y hxy
      exact hP (c :: x) y (by rw [hxy]; rfl)
    by_cases hc : c = ','
    · subst hc
      have hodd : countQuotes t % 2 = 1 := hP [] t rfl
      rw [splitFieldsAux_cons, if_neg (by simp [hodd]), ih hlift (',' :: acc)]
      simp
    · rw [splitFieldsAux_cons, if_neg (by simp [hc]), ih hlift (c :: acc)]
      simp

theorem countQuotes_joinComma_even (es : List (List Char))
    (h : ∀ e ∈ es, countQuotes e % 2 = 0) :
    countQuotes (joinL ',' es) % 2 = 0 := by
  induction es with
  | nil => simp [joinL, countQuotes]
  | cons e t ih =>
    cases t with
    | nil => simpa [joinL] using h e (by simp)
    | cons f u =>
      have he := h e (by simp)
      have hrest := ih (fun l hl => h l (by simp [hl]))
      have hj : joinL ',' (e :: f :: u) = e ++ ',' :: joinL ',' (f :: u) := rfl
      rw [hj, countQuotes_append, countQuotes_cons_ne ',' _ (by decide)]
      omega

theorem splitFields_joinL (es : List (List Char)) (hne : es ≠ [])
    (hP : ∀ e ∈ es, ∀ x y, e = x ++ ',' :: y → countQuotes y % 2 = 1)
    (hE : ∀ e ∈ es, countQuotes e % 2 = 0) :
    splitFieldsAux (joinL ',' es) [] = es := by
  induction es with
  | nil => exact absurd rfl hne
  | cons e t ih =>
    cases t with
    | nil =>
      rw [show joinL ',' [e] = e from rfl, splitFieldsAux_last e (hP e (by simp)) []]
      simp
    | cons f u =>
      have hj : joinL ',' (e :: f :: u) = e ++ ',' :: joinL ',' (f :: u) := rfl
      have heven : countQuotes (joinL ',' (f :: u)) % 2 = 0 :=
        countQuotes_joinComma_even (f :: u) (fun l hl => hE l (by simp [hl]))
      have hcs : countQuotes (',' :: joinL ',' (f :: u)) % 2 = 0 := by
        rw [countQuotes_cons_ne ',' _ (by decide)]; exact heven
      rw [hj, splitFieldsAux_pass e (hP e (by simp)) _ [] hcs]
      rw [splitFieldsAux_cons, if_pos ⟨rfl, heven⟩]
      rw [ih (by simp) (fun l hl => hP l (by simp [hl])) (fun l hl => hE l (by simp [hl]))]
      simp

/-! ### Claim C3: escaping and field-processing lemmas -/

theorem doubleQuotes_cons (c : Char) (rest : List Char) :
    doubleQuotes (c :: rest)
      = if c = '"' then '"' :: '"' :: doubleQuotes rest else c :: doubleQuotes rest := rfl

theorem countQuotes_doubleQuotes (v : List Char) :
    countQuotes (doubleQuotes v) = 2 * countQuotes v := by
  induction v with
  | nil => rfl
  | cons c t ih =>
    by_cases hc : c = '"'
    · subst hc
      rw [doubleQuotes_cons, if_pos rfl]
      simp only [countQuotes, List.countP_cons] at ih ⊢
      simp [ih]
      omega
    · rw [doubleQuotes_cons, if_neg hc]
      rw [countQuotes_cons_ne c _ hc, countQuotes_cons_ne c _ hc, ih]

theorem doubleQuotes_eq_self (v : List Char) (h : '"' ∉ v) : doubleQuotes v = v := by
  induction v with
  | nil => rfl
  | cons c t ih =>
    rw [doubleQuotes_cons, if_neg (fun e => h (by simp [e])), ih (fun m => h (by simp [m]))]

theorem collapseQuotes_cons2 (c c2 : Char) (rest : List Char) :
    collapseQuotes (c :: c2 :: rest)
      = if c = '"' ∧ c2 = '"' then '"' :: collapseQuotes rest
        else c :: collapseQuotes (c2 :: rest) := rfl

theorem collapseQuotes_cons_ne (c : Char) (rest : List Char) (hc : ¬(c = '"')) :
    collapseQuotes (c :: rest) = c :: collapseQuotes rest := by
  cases rest with
  | nil => rfl
  | cons c2 u => rw [collapseQuotes_cons2, if_neg (by simp [hc])]

theorem collapseQuotes_eq_self (v : List Char) (h : '"' ∉ v) : collapseQuotes v = v := by
  induction v with
  | nil => rfl
  | cons c t ih =>
    rw [collapseQuotes_cons_ne c t (fun e => h (by simp [e])), ih (fun m => h (by simp [m]))]

theorem collapse_doubleQuotes (v : List Char) : collapseQuotes (doubleQuotes v) = v := by
  induction v with
  | nil => rfl
  | cons c t ih =>
    by_cases hc : c = '"'
    · subst hc
      rw [doubleQuotes_cons, if_pos rfl, collapseQuotes_cons2, if_pos ⟨rfl, rfl⟩, ih]
    · rw [doubleQuotes_cons, if_neg hc, collapseQuotes_cons_ne c _ hc, ih]

theorem mem_doubleQuotes (c : Char) (v : List Char) (h : c ∈ doubleQuotes v) :
    c ∈ v ∨ c = '"' := by
  induction v with
  | nil => simp [doubleQuotes] at h
  | cons a t ih =>
    by_cases ha : a = '"'
    · subst ha
      rw [doubleQuotes_cons, if_pos rfl] at h
      simp only [List.mem_cons] at h
      rcases h with h | h | h
      · exact Or.inr h
      · exact Or.inr h
      · rcases ih h with h' | h'
        · exact Or.inl (by simp [h'])
        · exact Or.inr h'
    · rw [doubleQuotes_cons, if_neg ha] at h
      simp only [List.mem_cons] at h
      rcases h with h | h
      · exact Or.inl (by simp [h])
      · rcases ih h with h' | h'
        · exact Or.inl (by simp [h'])
        · exact Or.inr h'

theorem doubleQuotes_comma_decomp (v : List Char) :
    ∀ a b, doubleQuotes v = a ++ ',' :: b →
      ∃ v2, b = doubleQuotes v2 ∧ ∃ v1, v = v1 ++ ',' :: v2 := by
  induction v with
  | nil =>
    intro a b h
    rw [show doubleQuotes [] = [] from rfl] at h
    exact absurd h.symm (by simp)
  | cons c t ih =>
    intro a b h
    by_cases hc : c = '"'
    · subst hc
      rw [doubleQuotes_cons, if_pos rfl] at h
      cases a with
      | nil =>
        rw [List.nil_append] at h
        injection h with h1 h2
        exact absurd h1 (by decide)
      | cons a1 a2 =>
        rw [List.cons_append] at h
        injection h with h1 h2
        cases a2 with
        | nil =>
          rw [List.nil_append] at h2
          injection h2 with h3 h4
          exact absurd h3 (by decide)
        | cons a3 a4 =>
          rw [List.cons_append] at h2
          injection h2 with h3 h4
          obtain ⟨v2, hb, v1, hv⟩ := ih a4 b h4
          exact ⟨v2, hb, '"' :: v1, by rw [hv]; rfl⟩
    · rw [doubleQuotes_cons, if_neg hc] at h
      cases a with
      | nil =>
        rw [List.nil_append] at h
        injection h with h1 h2
        exact ⟨t, h2.symm, [], by rw [h1]; rfl⟩
      | cons a1 a2 =>
        rw [List.cons_append] at h
        injection h with h1 h2
        obtain ⟨v2, hb, v1, hv⟩ := ih a2 b h2
        exact ⟨v2, hb, c :: v1, by rw [hv]; rfl⟩

theorem concat_inj (a b : List Char) (x y : Char) (h : a ++ [x] = b ++ [y]) :
    a = b ∧ x = y := by
  have hrev := congrArg List.reverse h
  simp only [List.reverse_append, List.reverse_cons, List.reverse_nil,
    List.nil_append, List.cons_append] at hrev
  injection hrev with h1 h2
  exact ⟨List.reverse_inj.mp h2, h1⟩

theorem quotedField_comma_odd (v : List Char) (x y : List Char)
    (h : '"' :: doubleQuotes v ++ ['"'] = x ++ ',' :: y) :
    countQuotes y % 2 = 1 := by
  cases x with
  | nil =>
    rw [List.nil_append] at h
    injection h with h1 _
    exact absurd h1 (by decide)
  | cons x1 x2 =>
    rw [List.cons_append] at h
    injection h with h1 h2
    have h2' : doubleQuotes v ++ ['"'] = x2 ++ ',' :: y := h2
    rcases List.eq_nil_or_concat y with hy | ⟨y', c, hy⟩
    · subst hy
      have hcmp := congrArg List.getLast? h2'
      rw [List.getLast?_concat, List.getLast?_concat] at hcmp
      injection hcmp with hcmp'
      exact absurd hcmp' (by decide)
    · rw [List.concat_eq_append] at hy
      subst hy
      have hres : x2 ++ ',' :: (y' ++ [c]) = (x2 ++ ',' :: y') ++ [c] := by simp
      rw [hres] at h2'
      obtain ⟨hdq, hcq⟩ := concat_inj _ _ _ _ h2'
      obtain ⟨v2, hb, v1, hv⟩ := doubleQuotes_comma_decomp v x2 y' hdq
      rw [countQuotes_append, hb, countQuotes_doubleQuotes, ← hcq]
      have hone : countQuotes ['"'] = 1 := by decide
      rw [hone]
      omega

theorem quotedField_even (v : List Char) :
    countQuotes ('"' :: doubleQuotes v ++ ['"']) % 2 = 0 := by
  rw [show ('"' :: doubleQuotes v ++ ['"'] : List Char)
      = ['"'] ++ (doubleQuotes v ++ ['"']) from rfl]
  rw [countQuotes_append, countQuotes_append, countQuotes_doubleQuotes]
  have h1 : countQuotes ['"'] = 1 := by decide
  rw [h1]
  omega

theorem bareField_no_comma (v : List Char) (h : ',' ∉ v) :
    ∀ x y, v = x ++ ',' :: y → countQuotes y % 2 = 1 := by
  intro x y hxy
  exact absurd (by rw [hxy]; simp : ',' ∈ v) h

theorem bareField_even (v : List Char) (h : '"' ∉ v) : countQuotes v % 2 = 0 := by
  have : countQuotes v = 0 := by
    simp only [countQuotes]
    rw [List.countP_eq_zero]
    intro a ha
    simp only [decide_eq_true_eq]
    intro e
    exact h (e ▸ ha)
  rw [this]

theorem processField_bare (v : List Char) (h2 : '"' ∉ v) (htrim : jsTrimL v = v) :
    processField v = v := by
  unfold processField
  rw [htrim]
  have hstrip : stripWrapQuotes v = v := by
    unfold stripWrapQuotes
    rw [if_neg ?hcond]
    case hcond =>
      rintro ⟨hh, _⟩
      cases v with
      | nil => simp at hh
      | cons a t =>
        have : a = '"' := by simpa using hh
        exact h2 (by simp [this])
  rw [hstrip]
  exact collapseQuotes_eq_self v h2

theorem processField_quoted (v : List Char) :
    processField ('"' :: doubleQuotes v ++ ['"']) = v := by
  have hhead : ('"' :: doubleQuotes v ++ ['"']).head? = some '"' := rfl
  have hlast : ('"' :: doubleQuotes v ++ ['"']).getLast? = some '"' := by
    rw [show ('"' :: doubleQuotes v ++ ['"'] : List Char)
        = ('"' :: doubleQuotes v) ++ ['"'] from rfl]
    exact List.getLast?_concat _
  have htrim : jsTrimL ('"' :: doubleQuotes v ++ ['"']) = '"' :: doubleQuotes v ++ ['"'] := by
    apply jsTrimL_eq_self
    · intro c hc
      rw [hhead] at hc
      have hcq : '"' = c := by simpa using hc
      subst hcq
      decide
    · intro c hc
      rw [hlast] at hc
      have hcq : '"' = c := by simpa using hc
      subst hcq
      decide
  have hlen : ¬(('"' :: doubleQuotes v ++ ['"']).length ≤ 1) := by
    simp [List.length_append]
  unfold processField
  rw [htrim]
  have hstrip : stripWrapQuotes ('"' :: doubleQuotes v ++ ['"']) = doubleQuotes v := by
    unfold stripWrapQuotes
    rw [if_pos ⟨hhead, hlast⟩, if_neg hlen]
    show (doubleQuotes v ++ ['"']).dropLast = doubleQuotes v
    exact List.dropLast_concat
  rw [hstrip]
  exact collapse_doubleQuotes v

/-! ### Claim C3: record reconstruction lemmas -/

theorem mk_data (s : String) : String.mk s.data = s := by cases s; rfl

theorem mk_ne_empty (l : List Char) (h : l ≠ []) : String.mk l ≠ "" := by
  intro e
  exact h (congrArg String.data e)

theorem objKeys_cons (kv : String × String) (t : List (String × String)) :
    objKeys (kv :: t) = kv.1 :: objKeys t := rfl

theorem objGet_cons (k' v' : String) (t : List (String × String)) (k : String) :
    objGet ((k', v') :: t) k = if k' = k then some v' else objGet t k := rfl

theorem objGet_keys_map (r : List (String × String)) (hnd : (objKeys r).Nodup) :
    (objKeys r).map (fun h => objGet r h) = r.map (fun kv => some kv.2) := by
  induction r with
  | nil => rfl
  | cons kv t ih =>
    obtain ⟨k, v⟩ := kv
    rw [objKeys_cons] at hnd ⊢
    have hk : k ∉ objKeys t := (List.nodup_cons.mp hnd).1
    have hnd' : (objKeys t).Nodup := (List.nodup_cons.mp hnd).2
    simp only [List.map_cons]
    congr 1
    · rw [objGet_cons, if_pos rfl]
    · rw [← ih hnd']
      apply List.map_congr_left
      intro h hh
      rw [objGet_cons, if_neg (fun e => hk (by rw [e]; exact hh))]

theorem objUpd_cons (k' v' : String) (t : List (String × String)) (k v : String) :
    objUpd ((k', v') :: t) k v
      = if k' = k then (k', v) :: t else (k', v') :: objUpd t k v := rfl

theorem objUpd_fresh (o : List (String × String)) (k v : String) (h : k ∉ objKeys o) :
    objUpd o k v = o ++ [(k, v)] := by
  induction o with
  | nil => rfl
  | cons kv t ih =>
    obtain ⟨k', v'⟩ := kv
    rw [objKeys_cons, List.mem_cons] at h
    push_neg at h
    rw [objUpd_cons, if_neg (fun e => h.1 e.symm), ih h.2]
    rfl

theorem foldl_objUpd_fresh (pairs : List (String × String)) :
    ∀ o : List (String × String), (pairs.map Prod.fst).Nodup →
      (∀ p ∈ pairs, p.1 ∉ objKeys o) →
      pairs.foldl (fun o kv => objUpd o kv.1 kv.2) o = o ++ pairs := by
  induction pairs with
  | nil => intro o _ _; simp
  | cons p t ih =>
    intro o hnd hdisj
    simp only [List.foldl_cons]
    rw [objUpd_fresh o p.1 p.2 (hdisj p (by simp))]
    rw [List.map_cons] at hnd
    have hnd2 := List.nodup_cons.mp hnd
    rw [ih (o ++ [(p.1, p.2)]) hnd2.2 ?disj]
    · simp
    case disj =>
      intro q hq
      have hker : objKeys (o ++ [(p.1, p.2)]) = objKeys o ++ [p.1] := by
        simp [objKeys]
      rw [hker, List.mem_append, List.mem_singleton]
      push_neg
      refine ⟨hdisj q (by simp [hq]), ?_⟩
      intro e
      exact hnd2.1 (e ▸ List.mem_map_of_mem Prod.fst hq)

theorem buildRecord_eq_zip (headers values : List String)
    (hnd : headers.Nodup) (hlen : headers.length = values.length) :
    buildRecord headers values = List.zip headers values := by
  unfold buildRecord
  rw [foldl_objUpd_fresh (List.zip headers values) [] ?h1 ?h2]
  · simp
  case h1 => rw [List.map_fst_zip headers values (le_of_eq hlen)]; exact hnd
  case h2 => intro p _; simp [objKeys]

/-! ### Claim C3: escaped field and line properties -/

theorem escape_bare_str (v : String) (h1 : ',' ∉ v.data) (h2 : '"' ∉ v.data)
    (h3 : '\n' ∉ v.data) : escapeCSVValue (some v) = v := by
  show (if (v.data.contains ',' || v.data.contains '\n' || v.data.contains '"') = true
      then String.mk ('"' :: doubleQuotes v.data ++ ['"']) else v) = v
  rw [if_neg (by simp [h1, h2, h3])]

theorem escape_quoted_str (v : String) (hq : ',' ∈ v.data ∨ '"' ∈ v.data) :
    (escapeCSVValue (some v)).data = '"' :: doubleQuotes v.data ++ ['"'] := by
  show ((if (v.data.contains ',' || v.data.contains '\n' || v.data.contains '"') = true
      then String.mk ('"' :: doubleQuotes v.data ++ ['"']) else v)).data
    = '"' :: doubleQuotes v.data ++ ['"']
  rw [if_pos (by rcases hq with h | h <;> simp [h])]

theorem data_eq_nil_iff (v : String) : v.data = [] ↔ v = "" := by
  constructor
  · intro h
    cases v
    simp only at h
    rw [h]
  · intro h
    rw [h]

theorem escaped_field_props (v : String) (hgv : GoodValue v) :
    ('\n' ∉ (escapeCSVValue (some v)).data)
    ∧ (∀ c ∈ (escapeCSVValue (some v)).data.head?, jsIsSpace c = false)
    ∧ (∀ c ∈ (escapeCSVValue (some v)).data.getLast?, jsIsSpace c = false)
    ∧ (v ≠ "" → (escapeCSVValue (some v)).data ≠ [])
    ∧ (∀ x y, (escapeCSVValue (some v)).data = x ++ ',' :: y → countQuotes y % 2 = 1)
    ∧ (countQuotes (escapeCSVValue (some v)).data % 2 = 0)
    ∧ processField (escapeCSVValue (some v)).data = v.data := by
  obtain ⟨hn, hcase⟩ := hgv
  by_cases hq : ',' ∈ v.data ∨ '"' ∈ v.data
  · have he := escape_quoted_str v hq
    rw [he]
    refine ⟨?_, ?_, ?_, fun _ => by simp, quotedField_comma_odd v.data,
      quotedField_even v.data, processField_quoted v.data⟩
    · intro hmem
      rcases List.mem_cons.mp hmem with h | h
      · exact absurd h (by decide)
      rcases List.mem_append.mp h with h' | h'
      · rcases mem_doubleQuotes _ _ h' with h2 | h2
        · exact hn h2
        · exact absurd h2 (by decide)
      · simp at h'
    · intro c hc
      have hcq : '"' = c := by simpa using hc
      subst hcq
      decide
    · intro c hc
      rw [show ('"' :: doubleQuotes v.data ++ ['"'] : List Char)
          = ('"' :: doubleQuotes v.data) ++ ['"'] from rfl, List.getLast?_concat] at hc
      have hcq : '"' = c := by simpa using hc
      subst hcq
      decide
  · push_neg at hq
    have htrim : jsTrim v = v := by
      rcases hcase with h | h | h
      · exact absurd h hq.1
      · exact absurd h hq.2
      · exact h
    have htrimL : jsTrimL v.data = v.data := congrArg String.data htrim
    have he : escapeCSVValue (some v) = v := escape_bare_str v hq.1 hq.2 hn
    rw [he]
    refine ⟨hn, head_not_space_of_trim _ htrimL, getLast_not_space_of_trim _ htrimL,
      ?_, bareField_no_comma _ hq.1, bareField_even _ hq.2,
      processField_bare _ hq.2 htrimL⟩
    intro hne hnil
    exact hne ((data_eq_nil_iff v).mp hnil)

theorem line_props (es : List (List Char)) (hne : es ≠ [])
    (hf : ∀ e ∈ es, '\n' ∉ e ∧ (∀ c ∈ e.head?, jsIsSpace c = false)
          ∧ (∀ c ∈ e.getLast?, jsIsSpace c = false))
    (hsingle : ∀ e, es = [e] → e ≠ []) :
    joinL ',' es ≠ []
      ∧ (∀ c ∈ (joinL ',' es).head?, jsIsSpace c = false)
      ∧ (∀ c ∈ (joinL ',' es).getLast?, jsIsSpace c = false)
      ∧ '\n' ∉ joinL ',' es := by
  refine ⟨?_, ?_, ?_, ?_⟩
  · cases es with
    | nil => exact absurd rfl hne
    | cons e t =>
      cases t with
      | nil => exact hsingle e rfl
      | cons f u =>
        rw [show joinL ',' (e :: f :: u) = e ++ ',' :: joinL ',' (f :: u) from rfl]
        simp
  · cases es with
    | nil => exact absurd rfl hne
    | cons e t =>
      cases t with
      | nil =>
        rw [show joinL ',' [e] = e from rfl]
        exact (hf e (by simp)).2.1
      | cons f u =>
        cases e with
        | nil =>
          rw [joinL_head_nil ',' (f :: u) (by simp)]
          intro c hc
          have hcq : ',' = c := by simpa using hc
          subst hcq
          decide
        | cons c0 e' =>
          rw [joinL_head_cons]
          intro c hc
          have hcq : c0 = c := by simpa using hc
          rw [← hcq]
          exact (hf (c0 :: e') (by simp)).2.1 c0 rfl
  · rcases List.eq_nil_or_concat es with h | ⟨L, b, h⟩
    · exact absurd h hne
    · rw [List.concat_eq_append] at h
      subst h
      cases hL : L with
      | nil =>
        rw [show joinL ',' ([] ++ [b]) = b from rfl]
        exact (hf b (by simp)).2.2
      | cons a t =>
        by_cases hb : b = []
        · subst hb
          rw [joinL_getLast_concat_nil ',' (a :: t) (by simp)]
          intro c hc
          have hcq : ',' = c := by simpa using hc
          subst hcq
          decide
        · rw [joinL_getLast_concat_ne ',' (a :: t) b (by simp) hb]
          exact (hf b (by simp)).2.2
  · intro hmem
    rcases mem_joinL hmem with h | ⟨l, hl, hcl⟩
    · exact absurd h (by decide)
    · exact (hf l hl).1 hcl

/-! ### Claim C3: serializer-side characterizations -/

theorem joinSep_data (sep : Char) (l : List String) :
    (joinSep sep l).data = joinL sep (l.map String.data) := by
  induction l with
  | nil => rfl
  | cons x t ih =>
    cases t with
    | nil => rfl
    | cons y u =>
      show (x ++ String.mk [sep] ++ joinSep sep (y :: u)).data
        = x.data ++ sep :: joinL sep ((y :: u).map String.data)
      rw [String.data_append, String.data_append, ih]
      simp

theorem stripEdgeQuotesL_id (cs : List Char) (h : '"' ∉ cs) :
    stripEdgeQuotesL cs = cs := by
  have h1 : ¬(cs.head? = some '"') := by
    intro e
    cases cs with
    | nil => simp at e
    | cons a t =>
      have ha : a = '"' := by simpa using e
      exact h (by simp [ha])
  have h2 : ¬(cs.getLast? = some '"') := by
    intro e
    have : '"' ∈ cs := by
      rcases List.eq_nil_or_concat cs with hc | ⟨L, b, hc⟩
      · rw [hc] at e; simp at e
      · rw [List.concat_eq_append] at hc
        rw [hc, List.getLast?_concat] at e
        have hb : '"' = b := by simpa using e.symm
        rw [hc, ← hb]; simp
    exact h this
  unfold stripEdgeQuotesL stripEdgeQuoteR
  rw [if_neg h1, if_neg h2]

theorem headerNames_of_good (headers : List String) (hne : headers ≠ [])
    (hh : ∀ h ∈ headers, GoodHeader h) :
    headerNames (String.mk (joinL ',' (headers.map String.data))) = headers := by
  unfold headerNames splitComma
  show ((splitOnChar ',' (joinL ',' (headers.map String.data)) []).map String.mk).map
      (fun h => String.mk (stripEdgeQuotesL (jsTrimL h.data))) = headers
  rw [splitOnChar_joinL ',' (headers.map String.data) ?nocomma (by simpa using hne)]
  case nocomma =>
    intro l hl
    obtain ⟨h0, hm, hl2⟩ := List.mem_map.mp hl
    rw [← hl2]
    exact (hh h0 hm).2.1
  rw [List.map_map, List.map_map]
  have hid : ∀ h0 ∈ headers,
      ((fun h => String.mk (stripEdgeQuotesL (jsTrimL h.data))) ∘ String.mk ∘ String.data) h0
        = h0 := by
    intro h0 hm
    obtain ⟨_, _, hq, _, ht⟩ := hh h0 hm
    have htL : jsTrimL h0.data = h0.data := congrArg String.data ht
    show String.mk (stripEdgeQuotesL (jsTrimL (String.mk h0.data).data)) = h0
    rw [show (String.mk h0.data).data = h0.data from rfl, htL, stripEdgeQuotesL_id h0.data hq,
      mk_data]
  calc headers.map ((fun h => String.mk (stripEdgeQuotesL (jsTrimL h.data)))
          ∘ String.mk ∘ String.data)
      = headers.map id := List.map_congr_left hid
    _ = headers := List.map_id headers

theorem filterMap_eq_self_of {α : Type _} (f : α → Option α) (l : List α)
    (h : ∀ a ∈ l, f a = some a) : l.filterMap f = l := by
  induction l with
  | nil => rfl
  | cons a t ih =>
    rw [List.filterMap_cons, h a (by simp), ih (fun x hx => h x (by simp [hx]))]

theorem joinL_head_of_ne (sep : Char) (x : List Char) (xs : List (List Char)) (hx : x ≠ []) :
    (joinL sep (x :: xs)).head? = x.head? := by
  cases x with
  | nil => exact absurd rfl hx
  | cons c t => rw [joinL_head_cons]; rfl

theorem row_line_props (r : List (String × String)) (hrne : r ≠ [])
    (hv : ∀ kv ∈ r, GoodValue kv.2)
    (hs : r.length = 1 → ∀ kv ∈ r, kv.2 ≠ "") :
    joinL ',' (r.map (fun kv => (escapeCSVValue (some kv.2)).data)) ≠ []
      ∧ (∀ c ∈ (joinL ',' (r.map (fun kv => (escapeCSVValue (some kv.2)).data))).head?,
          jsIsSpace c = false)
      ∧ (∀ c ∈ (joinL ',' (r.map (fun kv => (escapeCSVValue (some kv.2)).data))).getLast?,
          jsIsSpace c = false)
      ∧ '\n' ∉ joinL ',' (r.map (fun kv => (escapeCSVValue (some kv.2)).data)) := by
  apply line_props
  · simp [hrne]
  · intro e he
    obtain ⟨kv, hkv, he2⟩ := List.mem_map.mp he
    rw [← he2]
    have hp := escaped_field_props kv.2 (hv kv hkv)
    exact ⟨hp.1, hp.2.1, hp.2.2.1⟩
  · intro e heq
    cases r with
    | nil => simp at heq
    | cons kv t =>
      cases t with
      | cons kv2 u => simp at heq
      | nil =>
        have heq2 : (escapeCSVValue (some kv.2)).data = e := by simpa using heq
        have hkv2 : kv.2 ≠ "" := hs (by simp) kv (by simp)
        have hp := escaped_field_props kv.2 (hv kv (by simp))
        rw [← heq2]
        exact hp.2.2.2.1 hkv2

theorem recordOfLine_of_row (headers : List String) (r : List (String × String))
    (hne : headers ≠ []) (hnd : headers.Nodup) (hk : objKeys r = headers)
    (hv : ∀ kv ∈ r, GoodValue kv.2)
    (hs1 : r.length = 1 → ∀ kv ∈ r, kv.2 ≠ "") :
    recordOfLine headers
      (String.mk (joinL ',' (r.map (fun kv => (escapeCSVValue (some kv.2)).data))))
      = some r := by
  have hrne : r ≠ [] := by
    intro e
    apply hne
    rw [← hk, e]
    rfl
  have hesne : r.map (fun kv => (escapeCSVValue (some kv.2)).data) ≠ [] := by
    simp [hrne]
  have hline := row_line_props r hrne hv hs1
  have htrimline :
      jsTrimL (joinL ',' (r.map (fun kv => (escapeCSVValue (some kv.2)).data)))
        = joinL ',' (r.map (fun kv => (escapeCSVValue (some kv.2)).data)) :=
    jsTrimL_eq_self _ hline.2.1 hline.2.2.1
  unfold recordOfLine
  rw [if_neg ?hblank]
  case hblank =>
    show ¬(String.mk (jsTrimL (joinL ',' (r.map (fun kv => (escapeCSVValue (some kv.2)).data))))
      = "")
    rw [htrimline]
    exact mk_ne_empty _ hline.1
  have hsplit : splitFields
      (String.mk (joinL ',' (r.map (fun kv => (escapeCSVValue (some kv.2)).data))))
      = (r.map (fun kv => (escapeCSVValue (some kv.2)).data)).map String.mk := by
    unfold splitFields
    rw [show (String.mk (joinL ',' (r.map (fun kv => (escapeCSVValue (some kv.2)).data)))).data
        = joinL ',' (r.map (fun kv => (escapeCSVValue (some kv.2)).data)) from rfl]
    rw [splitFields_joinL _ hesne ?hP ?hE]
    case hP =>
      intro e he
      obtain ⟨kv, hkv, he2⟩ := List.mem_map.mp he
      rw [← he2]
      exact (escaped_field_props kv.2 (hv kv hkv)).2.2.2.2.1
    case hE =>
      intro e he
      obtain ⟨kv, hkv, he2⟩ := List.mem_map.mp he
      rw [← he2]
      exact (escaped_field_props kv.2 (hv kv hkv)).2.2.2.2.2.1
  rw [hsplit]
  have hvals : ((r.map (fun kv => (escapeCSVValue (some kv.2)).data)).map String.mk).map
      (fun f => String.mk (processField f.data)) = r.map Prod.snd := by
    rw [List.map_map, List.map_map]
    have hper : ∀ kv ∈ r,
        ((fun f => String.mk (processField f.data)) ∘ String.mk
          ∘ (fun kv => (escapeCSVValue (some kv.2)).data)) kv = Prod.snd kv := by
      intro kv hkv
      show String.mk (processField
        ((String.mk ((escapeCSVValue (some kv.2)).data)).data)) = kv.2
      rw [show (String.mk ((escapeCSVValue (some kv.2)).data)).data
          = (escapeCSVValue (some kv.2)).data from rfl]
      rw [(escaped_field_props kv.2 (hv kv hkv)).2.2.2.2.2.2, mk_data]
    exact List.map_congr_left hper
  rw [hvals]
  have hlen : (r.map Prod.snd).length = headers.length := by
    rw [← hk]
    simp [objKeys]
  rw [if_pos hlen]
  rw [buildRecord_eq_zip headers (r.map Prod.snd) hnd hlen.symm]
  exact congrArg some (List.zip_of_prod hk rfl).symm

theorem parseCSVWithLog_of_good_lines (hd : List Char) (tl : List (List Char))
    (hgood : ∀ l ∈ hd :: tl, l ≠ [] ∧ (∀ c ∈ l.head?, jsIsSpace c = false)
        ∧ (∀ c ∈ l.getLast?, jsIsSpace c = false) ∧ '\n' ∉ l) :
    parseCSVWithLog (String.mk (joinL '\n' (hd :: tl)))
      = parseCSVLoop (headerNames (String.mk hd)) (tl.map String.mk) := by
  have htext : jsTrimL (joinL '\n' (hd :: tl)) = joinL '\n' (hd :: tl) := by
    apply jsTrimL_eq_self
    · intro c hc
      rw [joinL_head_of_ne '\n' hd tl (hgood hd (by simp)).1] at hc
      exact (hgood hd (by simp)).2.1 c hc
    · intro c hc
      rcases List.eq_nil_or_concat (hd :: tl) with h | ⟨L, b, h⟩
      · simp at h
      · rw [List.concat_eq_append] at h
        have hb : b ∈ hd :: tl := by rw [h]; simp
        cases hL : L with
        | nil =>
          rw [h, hL] at hc
          rw [show joinL '\n' (([] : List (List Char)) ++ [b]) = b from rfl] at hc
          exact (hgood b hb).2.2.1 c hc
        | cons a t =>
          rw [h, hL] at hc
          rw [joinL_getLast_concat_ne '\n' (a :: t) b (by simp) (hgood b hb).1] at hc
          exact (hgood b hb).2.2.1 c hc
  have hlines : splitLines (String.mk (joinL '\n' (hd :: tl)))
      = String.mk hd :: tl.map String.mk := by
    unfold splitLines
    rw [show (String.mk (joinL '\n' (hd :: tl))).data = joinL '\n' (hd :: tl) from rfl]
    rw [splitLinesL_joinL (hd :: tl) (by simp)
      (fun l hl => (hgood l hl).2.2.2)
      (fun l hl e => by
        have hmem : '\r' ∈ l.getLast? := by rw [e]; rfl
        exact absurd ((hgood l hl).2.2.1 '\r' hmem) (by decide))]
    rfl
  unfold parseCSVWithLog
  have hjstrim : jsTrim (String.mk (joinL '\n' (hd :: tl)))
      = String.mk (joinL '\n' (hd :: tl)) := by
    show String.mk (jsTrimL (joinL '\n' (hd :: tl))) = _
    rw [htext]
  rw [hjstrim, hlines]

/-! ### Claim C3: the round-trip theorem -/

/-- C3 (amended): `parseCSV` inverts `convertToCSV` for every record list
and field order in which (i) the field order is nonempty, duplicate-free,
and each field name is nonempty, free of commas, double quotes and line
breaks, and `trim`-invariant; (ii) every record has exactly the field
order's keys; (iii) every field value is free of line breaks AND is either
forced into quotes (contains a comma or double quote) or invariant under
`trim`; and (iv) when the field order has a single field, no value is the
empty string.  The extra conditions beyond "no embedded newlines" are
forced by the parser: it trims the whole text and every unquoted field,
and drops data lines that become blank. -/
theorem convert_parse_roundtrip (headers : List String) (records : List Obj)
    (hne : headers ≠ []) (hnd : headers.Nodup)
    (hh : ∀ h ∈ headers, GoodHeader h)
    (hk : ∀ r ∈ records, objKeys r = headers)
    (hv : ∀ r ∈ records, ∀ kv ∈ (r : List (String × String)), GoodValue kv.2)
    (hs1 : headers.length = 1 →
        ∀ r ∈ records, ∀ kv ∈ (r : List (String × String)), kv.2 ≠ "") :
    parseCSV (convertToCSV records headers) = records := by
  have hrne : ∀ r ∈ records, (r : List (String × String)) ≠ [] := by
    intro r hr e
    apply hne
    rw [← hk r hr, e]
    rfl
  have hrlen : ∀ r ∈ records, (r : List (String × String)).length = headers.length := by
    intro r hr
    rw [← hk r hr]
    simp [objKeys]
  have hconv : convertToCSV records headers
      = String.mk (joinL '\n' (joinL ',' (headers.map String.data)
          :: records.map (fun r =>
              joinL ',' (r.map (fun kv => (escapeCSVValue (some kv.2)).data))))) := by
    rw [← mk_data (convertToCSV records headers)]
    apply congrArg String.mk
    unfold convertToCSV
    rw [joinSep_data]
    simp only [List.map_cons]
    have hhead : (joinSep ',' (headers.map (fun h => escapeCSVValue (some h)))).data
        = joinL ',' (headers.map String.data) := by
      rw [joinSep_data, List.map_map]
      apply congrArg (joinL ',')
      apply List.map_congr_left
      intro h hm
      obtain ⟨_, hc, hq, hnl, _⟩ := hh h hm
      show (escapeCSVValue (some h)).data = h.data
      rw [escape_bare_str h hc hq hnl]
    have hrows : (records.map (fun row =>
          joinSep ',' (headers.map (fun h => escapeCSVValue (objGet row h))))).map String.data
        = records.map (fun r =>
            joinL ',' (r.map (fun kv => (escapeCSVValue (some kv.2)).data))) := by
      rw [List.map_map]
      apply List.map_congr_left
      intro r hr
      show (joinSep ',' (headers.map (fun h => escapeCSVValue (objGet r h)))).data
        = joinL ',' (r.map (fun kv => (escapeCSVValue (some kv.2)).data))
      rw [joinSep_data]
      have hmaps : headers.map (fun h => escapeCSVValue (objGet r h))
          = r.map (fun kv => escapeCSVValue (some kv.2)) := by
        have h1 : headers.map (fun h => objGet r h) = r.map (fun kv => some kv.2) := by
          rw [← hk r hr]
          exact objGet_keys_map r (by rw [hk r hr]; exact hnd)
        calc headers.map (fun h => escapeCSVValue (objGet r h))
            = (headers.map (fun h => objGet r h)).map escapeCSVValue := by
              rw [List.map_map]; rfl
          _ = (r.map (fun kv => some kv.2)).map escapeCSVValue := by rw [h1]
          _ = r.map (fun kv => escapeCSVValue (some kv.2)) := by rw [List.map_map]; rfl
      rw [hmaps, List.map_map]
      rfl
    rw [hhead, hrows]
  have hgood : ∀ l ∈ (joinL ',' (headers.map String.data)
        :: records.map (fun r =>
            joinL ',' (r.map (fun kv => (escapeCSVValue (some kv.2)).data)))),
      l ≠ [] ∧ (∀ c ∈ l.head?, jsIsSpace c = false)
        ∧ (∀ c ∈ l.getLast?, jsIsSpace c = false) ∧ '\n' ∉ l := by
    intro l hl
    rcases List.mem_cons.mp hl with hl | hl
    · subst hl
      apply line_props (headers.map String.data) (by simpa using hne)
      · intro e he
        obtain ⟨h, hm, he2⟩ := List.mem_map.mp he
        obtain ⟨hne0, _, _, hnl, ht⟩ := hh h hm
        have htL : jsTrimL h.data = h.data := congrArg String.data ht
        rw [← he2]
        exact ⟨hnl, head_not_space_of_trim h.data htL, getLast_not_space_of_trim h.data htL⟩
      · intro e heq
        cases headers with
        | nil => exact absurd rfl hne
        | cons h0 t0 =>
          cases t0 with
          | cons h1 t1 => simp at heq
          | nil =>
            have he2 : h0.data = e := by simpa using heq
            obtain ⟨hne0, _, _, _, _⟩ := hh h0 (by simp)
            rw [← he2]
            intro hnil
            exact hne0 ((data_eq_nil_iff h0).mp hnil)
    · obtain ⟨r, hr, hl2⟩ := List.mem_map.mp hl
      rw [← hl2]
      exact row_line_props r (hrne r hr) (hv r hr)
        (fun hlen1 => hs1 (by rw [← hrlen r hr]; exact hlen1) r hr)
  show (parseCSVWithLog (convertToCSV records headers)).1 = records
  rw [hconv, parseCSVWithLog_of_good_lines _ _ hgood,
    headerNames_of_good headers hne hh, parseCSVLoop_eq]
  show ((records.map (fun r =>
      joinL ',' (r.map (fun kv => (escapeCSVValue (some kv.2)).data)))).map
        String.mk).filterMap (recordOfLine headers) = records
  rw [List.filterMap_map, List.filterMap_map]
  apply filterMap_eq_self_of
  intro r hr
  show recordOfLine headers
      (String.mk (joinL ',' (r.map (fun kv => (escapeCSVValue (some kv.2)).data)))) = some r
  exact recordOfLine_of_row headers r hne hnd (hk r hr) (hv r hr)
    (fun hlen1 => hs1 (by rw [← hrlen r hr]; exact hlen1) r hr)

/-- C3 counterexample: the claim as stated fails on a record whose field
value `" a"` has a leading space and no embedded newline — `parseCSV`
trims each unquoted field, so the round trip returns `"a"`, not `" a"`. -/
theorem convert_parse_roundtrip_fails_on_whitespace :
    parseCSV (convertToCSV [[("f", " a")]] ["f"]) ≠ [[("f", " a")]]
      ∧ parseCSV (convertToCSV [[("f", " a")]] ["f"]) = [[("f", "a")]] :=
  ⟨by decide, by decide⟩

theorem convert_parse_roundtrip_witness :
    parseCSV (convertToCSV
        [[("source", "Acme, Inc."), ("amount", "120.50"), ("date", "2024-01-15")],
         [("source", "B\"B"), ("amount", "7"), ("date", "2024-02-20")]]
        ["source", "amount", "date"])
      = [[("source", "Acme, Inc."), ("amount", "120.50"), ("date", "2024-01-15")],
         [("source", "B\"B"), ("amount", "7"), ("date", "2024-02-20")]] :=
  convert_parse_roundtrip ["source", "amount", "date"]
    [[("source", "Acme, Inc."), ("amount", "120.50"), ("date", "2024-01-15")],
     [("source", "B\"B"), ("amount", "7"), ("date", "2024-02-20")]]
    (by decide) (by decide) (by decide) (by decide) (by decide) (by decide)

end BizSight
